import Mathlib

set_option maxRecDepth 10000

/-!
Verification development for the OpenScan-BH_SPC repository.

Part 1 models the line-clock pixellator (the event-to-image state machine).
The C++ implementation (`LineClockPixellator`) is not part of the repository
snapshot; only its unit tests are (`LineClockPixellatorTests.cpp`), so the
state machine is modelled from the specification (spec.md §3, §4.1, §4.2) and
cross-checked against the behaviour required by the unit tests.

Part 2 models the SDT file serializer from `SDTFile.c`.
-/

namespace FLIM

/-- Modelled from the spec: construction parameters of the `LineClockPixellator`
(spec §4.1, §6); the implementation source is missing from the repository, only
its unit tests are present. `pixelsPerLine`/`linesPerFrame` are `u32`, the
timing parameters are signed 64-bit tick counts (`lineDelay` may be negative),
and `lineMarkerBit` is the caller-configured bit position of the line clock in
a marker event's bitmask. -/
structure PixConfig where
  pixelsPerLine : Nat
  linesPerFrame : Nat
  pixelInterval : Int
  lineDelay : Int
  lineInterval : Int
  lineMarkerBit : Nat
deriving DecidableEq

/-- Modelled from the spec: the pixellator state (spec §3 "Pixellator state"). -/
structure PixState where
  totalLinesSeen : Nat
  lineStartTime : Option Int
  frameIndex : Nat
  frameOpen : Bool
  lastObservedTime : Int
  finished : Bool
deriving DecidableEq

/-- Modelled from the spec: the notifications the pixellator sends to its
consumer (spec §6 "Consumer capability set").  The photon payload type is kept
abstract, matching the spec's "payload carried unchanged". -/
inductive OutEvent (α : Type) where
  | beginFrame (frameIndex : Nat)
  | endFrame (frameIndex : Nat)
  | pixelPhoton (frameIndex : Nat) (x : Nat) (y : Nat) (photon : α)
  | errorOut (message : String)
  | finishEv
deriving DecidableEq

/-- Modelled from the spec: the calls a host makes on the pixellator
(spec §4.2): marker events, timestamp/photon events, error forwarding, flush,
and the end-of-stream finish. -/
inductive Op (α : Type) where
  | marker (bits : Nat) (macrotime : Int)
  | timestamp (macrotime : Int) (photon : α)
  | errorIn (message : String)
  | flushOp
  | finishOp
deriving DecidableEq

/-- Modelled from the spec (§4.1): pure function
`pixelIndexFor(time, lineStartTime) -> Option<u32>`; returns
`floor((time - lineStartTime) / pixelInterval)` if that lies in
`[0, pixelsPerLine)`, else `None` (also `None` when `lineStartTime` is unset). -/
def pixelIndexFor (cfg : PixConfig) (time : Int) (lineStartTime : Option Int) :
    Option Nat :=
  match lineStartTime with
  | none => none
  | some ls =>
    let q := (time - ls).fdiv cfg.pixelInterval
    if 0 ≤ q ∧ q < (cfg.pixelsPerLine : Int) then some q.toNat else none

/-- Modelled from the spec (§4.2 `handleMarker`): on a line marker, a marker
whose `lineInFrame` (computed before incrementing `totalLinesSeen`) is zero
closes the open frame (if any) and opens the next one; every line marker sets
`lineStartTime := macrotime + lineDelay`, increments `totalLinesSeen` and
updates `lastObservedTime`.  Returns `none` in the use-after-finish case
(spec §4.2 `finish`, §7 "Use-after-finish"). -/
def handleMarker {α : Type} (cfg : PixConfig) (s : PixState) (bits : Nat)
    (macrotime : Int) : Option (PixState × List (OutEvent α)) :=
  if s.finished then none
  else if bits &&& (1 <<< cfg.lineMarkerBit) ≠ 0 then
    let lineInFrame := s.totalLinesSeen % cfg.linesPerFrame
    let fr : PixState × List (OutEvent α) :=
      if lineInFrame = 0 then
        if s.frameOpen then
          ({ s with frameIndex := s.frameIndex + 1, frameOpen := true },
           [OutEvent.endFrame s.frameIndex, OutEvent.beginFrame (s.frameIndex + 1)])
        else
          ({ s with frameOpen := true }, [OutEvent.beginFrame s.frameIndex])
      else (s, [])
    some ({ fr.1 with
              lineStartTime := some (macrotime + cfg.lineDelay),
              totalLinesSeen := s.totalLinesSeen + 1,
              lastObservedTime := max s.lastObservedTime macrotime },
          fr.2)
  else some (s, [])

/-- Modelled from the spec (§4.2 `handleTimestamp`): update `lastObservedTime`;
if a frame is open and the timestamp falls in the current line's pixel window,
emit a `PixelPhotonEvent` with `x` the pixel index, `y = (totalLinesSeen - 1)
mod linesPerFrame` and the current `frameIndex`; otherwise drop it silently. -/
def handleTimestamp {α : Type} (cfg : PixConfig) (s : PixState)
    (macrotime : Int) (photon : α) : Option (PixState × List (OutEvent α)) :=
  if s.finished then none
  else
    let s1 := { s with lastObservedTime := max s.lastObservedTime macrotime }
    if s.frameOpen then
      match pixelIndexFor cfg macrotime s.lineStartTime with
      | some x =>
        some (s1, [OutEvent.pixelPhoton s.frameIndex x
                     ((s.totalLinesSeen - 1) % cfg.linesPerFrame) photon])
      | none => some (s1, [])
    else some (s1, [])

/-- Modelled from the spec (§4.2 `flush`): the completion check shared by
`flush` and `finish` — close the open frame iff the most recently started line
is the last line of the frame (`(totalLinesSeen - 1) mod linesPerFrame =
linesPerFrame - 1`) and `lastObservedTime - lineStartTime >= lineInterval`;
a frame whose last line has no marker yet is never closed here. -/
def flushCheck {α : Type} (cfg : PixConfig) (s : PixState) :
    PixState × List (OutEvent α) :=
  match s.lineStartTime with
  | some ls =>
    if s.frameOpen = true ∧
        (s.totalLinesSeen - 1) % cfg.linesPerFrame = cfg.linesPerFrame - 1 ∧
        cfg.lineInterval ≤ s.lastObservedTime - ls then
      ({ s with frameOpen := false, frameIndex := s.frameIndex + 1 },
       [OutEvent.endFrame s.frameIndex])
    else (s, [])
  | none => (s, [])

/-- Modelled from the spec (§4.2 `flush`): re-evaluate the completion check;
fails (`none`) after `finish`. -/
def flush {α : Type} (cfg : PixConfig) (s : PixState) :
    Option (PixState × List (OutEvent α)) :=
  if s.finished then none else some (flushCheck cfg s)

/-- Modelled from the spec (§4.2 `handleError`): forward the message to the
consumer's error channel without touching pixellator state. -/
def handleError {α : Type} (s : PixState) (message : String) :
    PixState × List (OutEvent α) :=
  (s, [OutEvent.errorOut message])

/-- Modelled from the spec (§4.2 `finish`): perform the same completion check
as `flush`, notify the consumer that no further events will arrive, and set
`finished`. -/
def finishPix {α : Type} (cfg : PixConfig) (s : PixState) :
    Option (PixState × List (OutEvent α)) :=
  if s.finished then none
  else
    let fc : PixState × List (OutEvent α) := flushCheck cfg s
    some ({ fc.1 with finished := true }, fc.2 ++ [OutEvent.finishEv])

/-- One host call.  A failed call (use after finish, spec §7) mutates nothing
and emits nothing. -/
def step {α : Type} (cfg : PixConfig) (s : PixState) :
    Op α → PixState × List (OutEvent α)
  | Op.marker bits t => (handleMarker cfg s bits t).getD (s, [])
  | Op.timestamp t p => (handleTimestamp cfg s t p).getD (s, [])
  | Op.errorIn m => handleError s m
  | Op.flushOp => (flush cfg s).getD (s, [])
  | Op.finishOp => (finishPix cfg s).getD (s, [])

/-- Run a sequence of host calls, concatenating the emitted notifications. -/
def run {α : Type} (cfg : PixConfig) (s : PixState) :
    List (Op α) → PixState × List (OutEvent α)
  | [] => (s, [])
  | op :: ops =>
    let r1 := step cfg s op
    let r2 := run cfg r1.1 ops
    (r2.1, r1.2 ++ r2.2)

/-- Modelled from the spec (§3 "Lifecycle"): the state at construction. -/
def pixInit : PixState :=
  { totalLinesSeen := 0, lineStartTime := none, frameIndex := 0,
    frameOpen := false, lastObservedTime := 0, finished := false }

/-- Number of BeginFrame notifications in an output segment. -/
def countBegin {α : Type} (outs : List (OutEvent α)) : Nat :=
  (outs.filter fun o => match o with
    | OutEvent.beginFrame _ => true
    | _ => false).length

/-- Number of EndFrame notifications in an output segment. -/
def countEnd {α : Type} (outs : List (OutEvent α)) : Nat :=
  (outs.filter fun o => match o with
    | OutEvent.endFrame _ => true
    | _ => false).length

/-- The geometry used throughout the repository's unit tests:
`LineClockPixellator(2, 2, 10, 0, 20, output)` with line markers carrying
bit 1 (`bits = 1 << 1`). -/
def cfg0 : PixConfig :=
  { pixelsPerLine := 2, linesPerFrame := 2, pixelInterval := 10,
    lineDelay := 0, lineInterval := 20, lineMarkerBit := 1 }

/-- A line-marker call as issued by the unit tests (`bits = 1 << 1`). -/
def mk (t : Int) : Op Nat := Op.marker 2 t

end FLIM

open FLIM in
/-- C1: with geometry (2, 2, 10, 0, 20), line markers at macrotime 100, 200,
300 (each followed by flush) produce: one BeginFrame / no EndFrame, then
nothing, then exactly EndFrame (frame 0) followed by BeginFrame (frame 1). -/
theorem claim_C1 :
    countBegin (run cfg0 pixInit [mk 100, Op.flushOp]).2 = 1 ∧
    countEnd (run cfg0 pixInit [mk 100, Op.flushOp]).2 = 0 ∧
    countBegin (run cfg0 (run cfg0 pixInit [mk 100, Op.flushOp]).1
      [mk 200, Op.flushOp]).2 = 0 ∧
    countEnd (run cfg0 (run cfg0 pixInit [mk 100, Op.flushOp]).1
      [mk 200, Op.flushOp]).2 = 0 ∧
    (run cfg0 (run cfg0 (run cfg0 pixInit [mk 100, Op.flushOp]).1
      [mk 200, Op.flushOp]).1 [mk 300, Op.flushOp]).2 =
      [OutEvent.endFrame 0, OutEvent.beginFrame 1] := by
  decide

open FLIM in
/-- C2: with markers at 100, 200, 300, 400 consumed, a timestamp at 419 then
flush emits no EndFrame, while a timestamp at 420 then flush emits exactly one
EndFrame and no BeginFrame (the last line's full lineInterval of 20 ticks has
elapsed since its marker at 400). -/
theorem claim_C2 :
    countEnd (run cfg0 (run cfg0 pixInit
      [mk 100, Op.flushOp, mk 200, Op.flushOp,
       mk 300, Op.flushOp, mk 400, Op.flushOp]).1
      [Op.timestamp 419 0, Op.flushOp]).2 = 0 ∧
    countEnd (run cfg0 (run cfg0 (run cfg0 pixInit
      [mk 100, Op.flushOp, mk 200, Op.flushOp,
       mk 300, Op.flushOp, mk 400, Op.flushOp]).1
      [Op.timestamp 419 0, Op.flushOp]).1
      [Op.timestamp 420 0, Op.flushOp]).2 = 1 ∧
    countBegin (run cfg0 (run cfg0 (run cfg0 pixInit
      [mk 100, Op.flushOp, mk 200, Op.flushOp,
       mk 300, Op.flushOp, mk 400, Op.flushOp]).1
      [Op.timestamp 419 0, Op.flushOp]).1
      [Op.timestamp 420 0, Op.flushOp]).2 = 0 := by
  decide

open FLIM in
/-- C3: with markers only at 100, 200, 300, a timestamp at 1 000 000 followed
by flush emits no BeginFrame and no EndFrame (the open frame's last line never
received its marker), and finish() emits no EndFrame for that frame either. -/
theorem claim_C3 :
    countBegin (run cfg0 (run cfg0 pixInit
      [mk 100, Op.flushOp, mk 200, Op.flushOp, mk 300, Op.flushOp]).1
      [Op.timestamp 1000000 0, Op.flushOp]).2 = 0 ∧
    countEnd (run cfg0 (run cfg0 pixInit
      [mk 100, Op.flushOp, mk 200, Op.flushOp, mk 300, Op.flushOp]).1
      [Op.timestamp 1000000 0, Op.flushOp]).2 = 0 ∧
    countEnd (run cfg0 (run cfg0 (run cfg0 pixInit
      [mk 100, Op.flushOp, mk 200, Op.flushOp, mk 300, Op.flushOp]).1
      [Op.timestamp 1000000 0, Op.flushOp]).1
      ([Op.finishOp] : List (Op Nat))).2 = 0 ∧
    countBegin (run cfg0 (run cfg0 (run cfg0 pixInit
      [mk 100, Op.flushOp, mk 200, Op.flushOp, mk 300, Op.flushOp]).1
      [Op.timestamp 1000000 0, Op.flushOp]).1
      ([Op.finishOp] : List (Op Nat))).2 = 0 := by
  decide

open FLIM in
/-- C4: flush is idempotent — whenever a flush call succeeds (the pixellator is
not finished) and yields state `s1`, an immediately following flush succeeds,
emits no notifications at all, and leaves the state at `s1`. -/
theorem claim_C4 {α : Type} (cfg : PixConfig) (s s1 : PixState)
    (out1 : List (OutEvent α)) (h : flush cfg s = some (s1, out1)) :
    flush cfg s1 = some (s1, ([] : List (OutEvent α))) := by
  by_cases hf : s.finished
  · simp [flush, hf] at h
  · rcases hls : s.lineStartTime with _ | ls
    · simp [flush, hf, flushCheck, hls] at h
      obtain ⟨rfl, -⟩ := h
      simp [flush, hf, flushCheck, hls]
    · by_cases hc : s.frameOpen = true ∧
          (s.totalLinesSeen - 1) % cfg.linesPerFrame = cfg.linesPerFrame - 1 ∧
          cfg.lineInterval ≤ s.lastObservedTime - ls
      · simp [flush, hf, flushCheck, hls, hc] at h
        obtain ⟨rfl, -⟩ := h
        simp [flush, hf, flushCheck, hls]
      · simp [flush, hf, flushCheck, hls, hc] at h
        obtain ⟨rfl, -⟩ := h
        simp [flush, hf, flushCheck, hls, hc]

/-- Witness for C4: the state reached after line markers at 100..400 and a
timestamp at 420; the first flush closes frame 1, the second is a no-op. -/
theorem claim_C4_witness :
    FLIM.flush FLIM.cfg0 ⟨4, some 400, 2, false, 420, false⟩ =
      some (⟨4, some 400, 2, false, 420, false⟩,
            ([] : List (FLIM.OutEvent Nat))) :=
  claim_C4 FLIM.cfg0 ⟨4, some 400, 1, true, 420, false⟩
    ⟨4, some 400, 2, false, 420, false⟩ [FLIM.OutEvent.endFrame 1] (by decide)

namespace FLIM

/-- The contract of `pixelIndexFor` claimed by the spec (§4.1, §8): inside the
pixel window the result is the floor quotient, lies in `[0, pixelsPerLine)`,
and is monotone non-decreasing; outside the window, or with `lineStartTime`
unset, the result is `none`. -/
def PixelIndexSpec (cfg : PixConfig) (ls t t2 : Int) : Prop :=
  (ls ≤ t → t < ls + (cfg.pixelsPerLine : Int) * cfg.pixelInterval →
     pixelIndexFor cfg t (some ls) =
         some ((t - ls).fdiv cfg.pixelInterval).toNat ∧
       ((t - ls).fdiv cfg.pixelInterval).toNat < cfg.pixelsPerLine ∧
       (t ≤ t2 → t2 < ls + (cfg.pixelsPerLine : Int) * cfg.pixelInterval →
         ((t - ls).fdiv cfg.pixelInterval).toNat ≤
           ((t2 - ls).fdiv cfg.pixelInterval).toNat)) ∧
    ((t < ls ∨ ls + (cfg.pixelsPerLine : Int) * cfg.pixelInterval ≤ t) →
       pixelIndexFor cfg t (some ls) = none) ∧
    pixelIndexFor cfg t none = none

end FLIM

open FLIM in
/-- C5: `pixelIndexFor` returns `floor((t - lineStartTime) / pixelInterval)`
exactly on the pixel window `[lineStartTime, lineStartTime +
pixelsPerLine*pixelInterval)`, where the result lies in `[0, pixelsPerLine)`
and is monotone non-decreasing in `t`; outside the window, or when
`lineStartTime` is unset, it returns `none`. -/
theorem claim_C5 (cfg : PixConfig) (ls t t2 : Int)
    (hpi : 0 < cfg.pixelInterval) : PixelIndexSpec cfg ls t t2 := by
  have hpi0 : (0 : Int) ≤ cfg.pixelInterval := le_of_lt hpi
  refine ⟨?_, ?_, rfl⟩
  · intro h1 h2
    have hnn : (0 : Int) ≤ t - ls := by omega
    have hq0 : 0 ≤ (t - ls).fdiv cfg.pixelInterval := Int.fdiv_nonneg hnn hpi0
    have heq : (t - ls).fdiv cfg.pixelInterval = (t - ls) / cfg.pixelInterval :=
      Int.fdiv_eq_ediv _ hpi0
    have hlt : (t - ls).fdiv cfg.pixelInterval < (cfg.pixelsPerLine : Int) := by
      rw [heq]
      rw [Int.ediv_lt_iff_lt_mul hpi]
      linarith
    refine ⟨?_, ?_, ?_⟩
    · simp [pixelIndexFor, if_pos (And.intro hq0 hlt)]
    · exact (Int.toNat_lt hq0).mpr hlt
    · intro h3 _h4
      refine Int.toNat_le_toNat ?_
      rw [heq, Int.fdiv_eq_ediv _ hpi0]
      exact Int.ediv_le_ediv hpi (by omega)
  · intro hout
    have heq : (t - ls).fdiv cfg.pixelInterval = (t - ls) / cfg.pixelInterval :=
      Int.fdiv_eq_ediv _ hpi0
    rcases hout with hlt | hge
    · have hneg : (t - ls).fdiv cfg.pixelInterval < 0 := by
        rw [heq]; exact Int.ediv_neg' (by omega) hpi
      simp only [pixelIndexFor]
      rw [if_neg]
      rintro ⟨hq0, -⟩
      omega
    · have hbig : (cfg.pixelsPerLine : Int) ≤ (t - ls).fdiv cfg.pixelInterval := by
        rw [heq]
        rw [Int.le_ediv_iff_mul_le hpi]
        linarith
      simp only [pixelIndexFor]
      rw [if_neg]
      rintro ⟨-, hq⟩
      omega

/-- Witness for C5 at the test geometry, `lineStartTime = 100`, probing the
window with `t = 105` and `t2 = 119`. -/
theorem claim_C5_witness :
    0 < FLIM.cfg0.pixelInterval ∧ FLIM.PixelIndexSpec FLIM.cfg0 100 105 119 :=
  ⟨by decide, claim_C5 FLIM.cfg0 100 105 119 (by decide)⟩

open FLIM in
/-- C9: once `finish()` has succeeded the pixellator is in the terminal state,
and every subsequent `handleMarker`, `handleTimestamp` or `flush` call fails
with the invalid-state condition (`none`) instead of being silently ignored,
mutating nothing. -/
theorem claim_C9 {α : Type} (cfg : PixConfig) (s s2 : PixState)
    (out : List (OutEvent α)) (b : Nat) (mt t2 : Int) (ph : α)
    (h : finishPix (α := α) cfg s = some (s2, out)) :
    s2.finished = true ∧
    handleMarker (α := α) cfg s2 b mt = none ∧
    handleTimestamp cfg s2 t2 ph = none ∧
    flush (α := α) cfg s2 = none := by
  by_cases hf : s.finished
  · simp [finishPix, hf] at h
  · simp [finishPix, hf] at h
    obtain ⟨rfl, -⟩ := h
    refine ⟨rfl, ?_, ?_, ?_⟩ <;> simp [handleMarker, handleTimestamp, flush]

/-- Witness for C9: finish from the initial state, then attempt a marker, a
timestamp and a flush. -/
theorem claim_C9_witness :
    (⟨0, none, 0, false, 0, true⟩ : FLIM.PixState).finished = true ∧
    FLIM.handleMarker (α := Nat) FLIM.cfg0 ⟨0, none, 0, false, 0, true⟩ 2 100 =
      none ∧
    FLIM.handleTimestamp FLIM.cfg0 ⟨0, none, 0, false, 0, true⟩ 105 (0 : Nat) =
      none ∧
    FLIM.flush (α := Nat) FLIM.cfg0 ⟨0, none, 0, false, 0, true⟩ = none :=
  claim_C9 FLIM.cfg0 FLIM.pixInit ⟨0, none, 0, false, 0, true⟩
    [FLIM.OutEvent.finishEv] 2 100 105 (0 : Nat) (by decide)

namespace FLIM

/-- Trace property claimed by the spec (§3 invariants, §8): every emitted
pixel-photon notification carrying frame `f` is preceded by `BeginFrame f`
and not preceded by `EndFrame f`. -/
def GoodTrace {α : Type} (outs : List (OutEvent α)) : Prop :=
  ∀ l1 f x y p l2, outs = l1 ++ OutEvent.pixelPhoton f x y p :: l2 →
    OutEvent.beginFrame f ∈ l1 ∧ OutEvent.endFrame f ∉ l1

/-- Invariant tying the pixellator state to the notifications already sent:
every EndFrame sent so far closes a frame strictly before the current one, and
an open frame has had its BeginFrame sent. -/
def TraceInv {α : Type} (acc : List (OutEvent α)) (s : PixState) : Prop :=
  (∀ f, OutEvent.endFrame f ∈ acc → f < s.frameIndex) ∧
  (s.frameOpen = true → OutEvent.beginFrame s.frameIndex ∈ acc)

theorem pivot_in_left {α : Type} {a b l1 l2 : List α} {x : α}
    (h : a ++ b = l1 ++ x :: l2) (hx : x ∉ b) : ∃ l3, a = l1 ++ x :: l3 := by
  rcases List.append_eq_append_iff.mp h with ⟨a2, h1, h2⟩ | ⟨c2, h1, h2⟩
  · subst h2
    exact absurd (List.mem_append_right a2 (List.mem_cons_self x l2)) hx
  · cases c2 with
    | nil =>
      simp only [List.nil_append] at h2
      subst h2
      exact absurd (List.mem_cons_self x l2) hx
    | cons y c3 =>
      simp only [List.cons_append, List.cons.injEq] at h2
      obtain ⟨rfl, -⟩ := h2
      exact ⟨c3, h1⟩

theorem pivot_last {α : Type} {a l1 l2 : List α} {x e : α}
    (h : a ++ [e] = l1 ++ x :: l2) :
    (∃ l3, a = l1 ++ x :: l3) ∨ (l1 = a ∧ x = e ∧ l2 = []) := by
  rcases List.append_eq_append_iff.mp h with ⟨a2, h1, h2⟩ | ⟨c2, h1, h2⟩
  · cases a2 with
    | nil =>
      simp only [List.append_nil] at h1
      simp only [List.nil_append, List.cons.injEq] at h2
      right
      exact ⟨h1, h2.1.symm, h2.2.symm⟩
    | cons y c3 =>
      simp only [List.cons_append, List.cons.injEq] at h2
      rcases h2 with ⟨-, h3⟩
      simp at h3
  · cases c2 with
    | nil =>
      simp only [List.append_nil] at h1
      simp only [List.nil_append, List.cons.injEq] at h2
      right
      exact ⟨h1.symm, h2.1, h2.2⟩
    | cons y c3 =>
      simp only [List.cons_append, List.cons.injEq] at h2
      obtain ⟨rfl, -⟩ := h2
      left
      exact ⟨c3, h1⟩

theorem goodTrace_append {α : Type} {a b : List (OutEvent α)}
    (ha : GoodTrace a) (hb : ∀ f x y p, OutEvent.pixelPhoton f x y p ∉ b) :
    GoodTrace (a ++ b) := by
  intro l1 f x y p l2 h
  obtain ⟨l3, rfl⟩ := pivot_in_left h (hb f x y p)
  exact ha l1 f x y p l3 rfl

theorem goodTrace_snoc_photon {α : Type} {a : List (OutEvent α)}
    {f x y : Nat} {p : α}
    (ha : GoodTrace a) (hb : OutEvent.beginFrame f ∈ a)
    (he : OutEvent.endFrame f ∉ a) :
    GoodTrace (a ++ [OutEvent.pixelPhoton f x y p]) := by
  intro l1 f2 x2 y2 p2 l2 h
  rcases pivot_last h with ⟨l3, rfl⟩ | ⟨rfl, hx, rfl⟩
  · exact ha l1 f2 x2 y2 p2 l3 rfl
  · injection hx with hf hx2 hy2 hp2
    subst hf
    exact ⟨hb, he⟩

theorem handleMarker_inv {α : Type} (cfg : PixConfig) (s : PixState)
    (bits : Nat) (t : Int) (s2 : PixState) (out : List (OutEvent α))
    (acc : List (OutEvent α))
    (h : handleMarker cfg s bits t = some (s2, out))
    (hinv : TraceInv acc s) (hg : GoodTrace acc) :
    TraceInv (acc ++ out) s2 ∧ GoodTrace (acc ++ out) := by
  obtain ⟨hEnd, hBegin⟩ := hinv
  by_cases hf : s.finished
  · simp [handleMarker, hf] at h
  · by_cases hbit : bits &&& (1 <<< cfg.lineMarkerBit) ≠ 0
    · by_cases hline : s.totalLinesSeen % cfg.linesPerFrame = 0
      · by_cases hopen : s.frameOpen
        · simp [handleMarker, hf, hbit, hline, hopen] at h
          obtain ⟨rfl, rfl⟩ := h
          refine ⟨⟨?_, ?_⟩, ?_⟩
          · intro f hfm
            rcases List.mem_append.mp hfm with hfm | hfm
            · exact Nat.lt_succ_of_lt (hEnd f hfm)
            · rcases List.mem_cons.mp hfm with hfm | hfm
              · have hfi : f = s.frameIndex := by
                  simpa using hfm
                subst hfi
                exact Nat.lt_succ_self _
              · simp at hfm
          · intro _
            refine List.mem_append_right _ ?_
            simp
          · refine goodTrace_append hg ?_
            intro f x y p
            simp
        · simp [handleMarker, hf, hbit, hline, hopen] at h
          obtain ⟨rfl, rfl⟩ := h
          refine ⟨⟨?_, ?_⟩, ?_⟩
          · intro f hfm
            rcases List.mem_append.mp hfm with hfm | hfm
            · exact hEnd f hfm
            · simp at hfm
          · intro _
            refine List.mem_append_right _ ?_
            simp
          · refine goodTrace_append hg ?_
            intro f x y p
            simp
      · simp [handleMarker, hf, hbit, hline] at h
        obtain ⟨rfl, rfl⟩ := h
        rw [List.append_nil]
        exact ⟨⟨hEnd, hBegin⟩, hg⟩
    · simp [handleMarker, hf, hbit] at h
      obtain ⟨rfl, rfl⟩ := h
      rw [List.append_nil]
      exact ⟨⟨hEnd, hBegin⟩, hg⟩

theorem handleTimestamp_inv {α : Type} (cfg : PixConfig) (s : PixState)
    (t : Int) (p0 : α) (s2 : PixState) (out : List (OutEvent α))
    (acc : List (OutEvent α))
    (h : handleTimestamp cfg s t p0 = some (s2, out))
    (hinv : TraceInv acc s) (hg : GoodTrace acc) :
    TraceInv (acc ++ out) s2 ∧ GoodTrace (acc ++ out) := by
  obtain ⟨hEnd, hBegin⟩ := hinv
  by_cases hf : s.finished
  · simp [handleTimestamp, hf] at h
  · by_cases hopen : s.frameOpen
    · rcases hpx : pixelIndexFor cfg t s.lineStartTime with _ | x
      · simp [handleTimestamp, hf, hopen, hpx] at h
        obtain ⟨rfl, rfl⟩ := h
        rw [List.append_nil]
        exact ⟨⟨hEnd, fun _ => hBegin hopen⟩, hg⟩
      · simp [handleTimestamp, hf, hopen, hpx] at h
        obtain ⟨rfl, rfl⟩ := h
        have hnotend : OutEvent.endFrame s.frameIndex ∉ acc := by
          intro hmem
          exact absurd (hEnd _ hmem) (lt_irrefl _)
        refine ⟨⟨?_, ?_⟩, ?_⟩
        · intro f hfm
          rcases List.mem_append.mp hfm with hfm | hfm
          · exact hEnd f hfm
          · simp at hfm
        · intro _
          exact List.mem_append_left _ (hBegin hopen)
        · exact goodTrace_snoc_photon hg (hBegin hopen) hnotend
    · simp [handleTimestamp, hf, hopen] at h
      obtain ⟨rfl, rfl⟩ := h
      rw [List.append_nil]
      refine ⟨⟨hEnd, ?_⟩, hg⟩
      intro hopen2
      simp at hopen2

theorem flushCheck_inv {α : Type} (cfg : PixConfig) (s : PixState)
    (acc : List (OutEvent α))
    (hinv : TraceInv acc s) (hg : GoodTrace acc) :
    TraceInv (acc ++ (flushCheck (α := α) cfg s).2) (flushCheck (α := α) cfg s).1 ∧
    GoodTrace (acc ++ (flushCheck (α := α) cfg s).2) := by
  obtain ⟨hEnd, hBegin⟩ := hinv
  rcases hls : s.lineStartTime with _ | ls
  · simp only [flushCheck, hls]
    rw [List.append_nil]
    exact ⟨⟨hEnd, hBegin⟩, hg⟩
  · by_cases hc : s.frameOpen = true ∧
        (s.totalLinesSeen - 1) % cfg.linesPerFrame = cfg.linesPerFrame - 1 ∧
        cfg.lineInterval ≤ s.lastObservedTime - ls
    · simp only [flushCheck, hls, if_pos hc]
      refine ⟨⟨?_, ?_⟩, ?_⟩
      · intro f hfm
        rcases List.mem_append.mp hfm with hfm | hfm
        · exact Nat.lt_succ_of_lt (hEnd f hfm)
        · have hfi : f = s.frameIndex := by
            simpa using hfm
          subst hfi
          exact Nat.lt_succ_self _
      · intro hopen2
        simp at hopen2
      · refine goodTrace_append hg ?_
        intro f x y p
        simp
    · simp only [flushCheck, hls, if_neg hc]
      rw [List.append_nil]
      exact ⟨⟨hEnd, hBegin⟩, hg⟩

theorem flush_inv {α : Type} (cfg : PixConfig) (s : PixState)
    (s2 : PixState) (out : List (OutEvent α)) (acc : List (OutEvent α))
    (h : flush cfg s = some (s2, out))
    (hinv : TraceInv acc s) (hg : GoodTrace acc) :
    TraceInv (acc ++ out) s2 ∧ GoodTrace (acc ++ out) := by
  by_cases hf : s.finished
  · simp [flush, hf] at h
  · have h2 : flushCheck (α := α) cfg s = (s2, out) := by
      simpa [flush, hf] using h
    have hmain := flushCheck_inv (α := α) cfg s acc hinv hg
    rw [h2] at hmain
    exact hmain

theorem finishPix_inv {α : Type} (cfg : PixConfig) (s : PixState)
    (s2 : PixState) (out : List (OutEvent α)) (acc : List (OutEvent α))
    (h : finishPix cfg s = some (s2, out))
    (hinv : TraceInv acc s) (hg : GoodTrace acc) :
    TraceInv (acc ++ out) s2 ∧ GoodTrace (acc ++ out) := by
  by_cases hf : s.finished
  · simp [finishPix, hf] at h
  · simp only [finishPix, hf, Bool.false_eq_true, if_false, Option.some.injEq,
      Prod.mk.injEq] at h
    obtain ⟨rfl, rfl⟩ := h
    have hmain := flushCheck_inv (α := α) cfg s acc hinv hg
    obtain ⟨⟨hE2, hB2⟩, hG2⟩ := hmain
    refine ⟨⟨?_, ?_⟩, ?_⟩
    · intro f hfm
      rw [← List.append_assoc] at hfm
      rcases List.mem_append.mp hfm with hfm | hfm
      · exact hE2 f hfm
      · simp at hfm
    · intro hopen2
      rw [← List.append_assoc]
      exact List.mem_append_left _ (hB2 hopen2)
    · rw [← List.append_assoc]
      refine goodTrace_append hG2 ?_
      intro f x y p
      simp

theorem step_inv {α : Type} (cfg : PixConfig) (s : PixState) (op : Op α)
    (acc : List (OutEvent α))
    (hinv : TraceInv acc s) (hg : GoodTrace acc) :
    TraceInv (acc ++ (step cfg s op).2) (step cfg s op).1 ∧
    GoodTrace (acc ++ (step cfg s op).2) := by
  obtain ⟨hEnd, hBegin⟩ := hinv
  cases op with
  | marker bits t =>
    rcases hres : handleMarker (α := α) cfg s bits t with _ | r
    · simp only [step, hres, Option.getD_none]
      rw [List.append_nil]
      exact ⟨⟨hEnd, hBegin⟩, hg⟩
    · simp only [step, hres, Option.getD_some]
      exact handleMarker_inv cfg s bits t r.1 r.2 acc (by rw [hres]) ⟨hEnd, hBegin⟩ hg
  | timestamp t p =>
    rcases hres : handleTimestamp cfg s t p with _ | r
    · simp only [step, hres, Option.getD_none]
      rw [List.append_nil]
      exact ⟨⟨hEnd, hBegin⟩, hg⟩
    · simp only [step, hres, Option.getD_some]
      exact handleTimestamp_inv cfg s t p r.1 r.2 acc (by rw [hres]) ⟨hEnd, hBegin⟩ hg
  | errorIn m =>
    simp only [step, handleError]
    refine ⟨⟨?_, ?_⟩, ?_⟩
    · intro f hfm
      rcases List.mem_append.mp hfm with hfm | hfm
      · exact hEnd f hfm
      · simp at hfm
    · intro hopen2
      exact List.mem_append_left _ (hBegin hopen2)
    · refine goodTrace_append hg ?_
      intro f x y p
      simp
  | flushOp =>
    rcases hres : flush (α := α) cfg s with _ | r
    · simp only [step, hres, Option.getD_none]
      rw [List.append_nil]
      exact ⟨⟨hEnd, hBegin⟩, hg⟩
    · simp only [step, hres, Option.getD_some]
      exact flush_inv cfg s r.1 r.2 acc (by rw [hres]) ⟨hEnd, hBegin⟩ hg
  | finishOp =>
    rcases hres : finishPix (α := α) cfg s with _ | r
    · simp only [step, hres, Option.getD_none]
      rw [List.append_nil]
      exact ⟨⟨hEnd, hBegin⟩, hg⟩
    · simp only [step, hres, Option.getD_some]
      exact finishPix_inv cfg s r.1 r.2 acc (by rw [hres]) ⟨hEnd, hBegin⟩ hg

theorem run_inv {α : Type} (cfg : PixConfig) (ops : List (Op α)) :
    ∀ (s : PixState) (acc : List (OutEvent α)),
      TraceInv acc s → GoodTrace acc →
      TraceInv (acc ++ (run cfg s ops).2) (run cfg s ops).1 ∧
      GoodTrace (acc ++ (run cfg s ops).2) := by
  induction ops with
  | nil =>
    intro s acc h1 h2
    simp only [run]
    rw [List.append_nil]
    exact ⟨h1, h2⟩
  | cons op ops ih =>
    intro s acc h1 h2
    simp only [run]
    obtain ⟨h3, h4⟩ := step_inv cfg s op acc h1 h2
    have h5 := ih (step cfg s op).1 (acc ++ (step cfg s op).2) h3 h4
    simpa [List.append_assoc] using h5

end FLIM

open FLIM in
/-- C6: in every callback sequence the pixellator produces from any input
stream, a pixel-photon notification carrying frame index `f` appears only
after `BeginFrame f` has been emitted and never after `EndFrame f`. -/
theorem claim_C6 {α : Type} (cfg : PixConfig) (ops : List (Op α))
    (l1 l2 : List (OutEvent α)) (f x y : Nat) (p : α)
    (h : (run cfg pixInit ops).2 = l1 ++ OutEvent.pixelPhoton f x y p :: l2) :
    OutEvent.beginFrame f ∈ l1 ∧ OutEvent.endFrame f ∉ l1 := by
  have hinv : TraceInv ([] : List (OutEvent α)) pixInit := by
    constructor
    · intro f2 hfm
      simp at hfm
    · intro hopen
      simp [pixInit] at hopen
  have hgood : GoodTrace ([] : List (OutEvent α)) := by
    intro m1 f2 x2 y2 p2 m2 hh
    exact absurd hh (by cases m1 <;> simp)
  have hmain := (run_inv cfg ops pixInit [] hinv hgood).2
  simp only [List.nil_append] at hmain
  exact hmain l1 f x y p l2 h

/-- Witness for C6: with the test geometry, a line marker at 100 followed by a
photon at 105 yields the trace `[BeginFrame 0, PixelPhoton 0 0 0]`. -/
theorem claim_C6_witness :
    FLIM.OutEvent.beginFrame 0 ∈
      ([FLIM.OutEvent.beginFrame 0] : List (FLIM.OutEvent Nat)) ∧
    FLIM.OutEvent.endFrame 0 ∉
      ([FLIM.OutEvent.beginFrame 0] : List (FLIM.OutEvent Nat)) :=
  claim_C6 FLIM.cfg0 [FLIM.mk 100, FLIM.Op.timestamp 105 7]
    [FLIM.OutEvent.beginFrame 0] [] 0 0 0 7 (by decide)

namespace SDT

/-!
Model of the SDT writer in `src/SDTFile.c`.  File I/O (`fwrite`, `fseek`,
`ftell`) is modelled by an explicit byte-list file plus a current position; an
oracle list of booleans decides whether each successive `fwrite`/`fseek` call
succeeds (a failed call writes/seeks nothing), which lets the error paths of
`WriteSDTFileP` be examined for every failure point.  The struct layouts and
the `BH_*` constants come from `SPC_data_file_structure_fixed.h`, which is not
part of the repository; they are modelled from the Becker-Hickl file-format
documentation the code refers to.  The packed `bhfile_header` is 42 bytes
(`BH_HDR_LENGTH`), the packed `BHFileBlockHeader` is 22 bytes with
`next_block_offs` at byte offset 6, and the packed `MeasureInfo` is 512 bytes
(the size is recorded in SDTFile.c itself).
-/

/-- Bytes of a 16-bit value, little endian, as written by `fwrite` of a
packed struct field. -/
def le16 (n : Nat) : List Nat := [n % 256, n / 256 % 256]

/-- Bytes of a 32-bit value, little endian. -/
def le32 (n : Nat) : List Nat :=
  [n % 256, n / 256 % 256, n / 65536 % 256, n / 16777216 % 256]

/-- Modelled from the spec: checksum seed constant from the missing BH header. -/
def BH_HEADER_CHKSUM : Nat := 0x55aa

/-- Modelled from the spec: `header_valid` sentinel (header not valid). -/
def BH_HEADER_NOT_VALID : Nat := 0x1111

/-- Modelled from the spec: `header_valid` sentinel (header valid). -/
def BH_HEADER_VALID : Nat := 0x5555

/-- Length in bytes of the packed `bhfile_header`. -/
def BH_HDR_LENGTH : Nat := 42

/-- Modelled from the spec: data-set-type nibble of `block_type`; the claims do
not depend on its numeric value. -/
def FIFO_DATA : Nat := 8

/-- Modelled from the spec: block-contents nibble of `block_type`. -/
def IMG_BLOCK : Nat := 0x60

/-- Modelled from the spec: data-format bits of `block_type`. -/
def DATA_USHORT : Nat := 0

/-- Size in bytes of the packed `MeasureInfo` struct (noted in SDTFile.c:
"End of the 512-byte MeasureInfo struct"). -/
def sizeofMeasureInfo : Nat := 512

/-- The fields of `struct SDTFileData` that the byte layout of the file
depends on. -/
structure SDTFileData where
  numChannels : Nat
  width : Nat
  height : Nat
  histogramBits : Nat
  moduleNumber : Nat
  modelName : String
  date : String
  time : String
deriving DecidableEq

/-- The fields of `struct SDTFileChannelData` that the byte layout depends
on (the rest only feeds the abstracted MeasureInfo block). -/
structure SDTFileChannelData where
  channel : Nat
deriving DecidableEq

/-- The packed `bhfile_header` (42 bytes): 16-bit fields `revision`,
`info_length`, `setup_length`, `no_of_data_blocks`, `no_of_meas_desc_blocks`,
`meas_desc_block_length`, `header_valid`, `reserved2`, `chksum`; 32-bit fields
`info_offs`, `setup_offs`, `data_block_offs`, `data_block_length`,
`meas_desc_block_offs`, `reserved1`. -/
structure BHFileHeader where
  revision : Nat
  info_offs : Nat
  info_length : Nat
  setup_offs : Nat
  setup_length : Nat
  data_block_offs : Nat
  no_of_data_blocks : Nat
  data_block_length : Nat
  meas_desc_block_offs : Nat
  no_of_meas_desc_blocks : Nat
  meas_desc_block_length : Nat
  header_valid : Nat
  reserved1 : Nat
  reserved2 : Nat
  chksum : Nat
deriving DecidableEq

/-- Byte serialization of the packed `bhfile_header`, in field order. -/
def headerBytes (h : BHFileHeader) : List Nat :=
  le16 h.revision ++ le32 h.info_offs ++ le16 h.info_length ++
  le32 h.setup_offs ++ le16 h.setup_length ++ le32 h.data_block_offs ++
  le16 h.no_of_data_blocks ++ le32 h.data_block_length ++
  le32 h.meas_desc_block_offs ++ le16 h.no_of_meas_desc_blocks ++
  le16 h.meas_desc_block_length ++ le16 h.header_valid ++
  le32 h.reserved1 ++ le16 h.reserved2 ++ le16 h.chksum

/-- The 21 16-bit words of the packed header, as `unsigned short *p` reads
them in `HeaderChecksum` (a 32-bit field contributes its low word then its
high word). -/
def headerWords (h : BHFileHeader) : List Nat :=
  [h.revision % 65536,
   h.info_offs % 65536, h.info_offs / 65536 % 65536,
   h.info_length % 65536,
   h.setup_offs % 65536, h.setup_offs / 65536 % 65536,
   h.setup_length % 65536,
   h.data_block_offs % 65536, h.data_block_offs / 65536 % 65536,
   h.no_of_data_blocks % 65536,
   h.data_block_length % 65536, h.data_block_length / 65536 % 65536,
   h.meas_desc_block_offs % 65536, h.meas_desc_block_offs / 65536 % 65536,
   h.no_of_meas_desc_blocks % 65536,
   h.meas_desc_block_length % 65536,
   h.header_valid % 65536,
   h.reserved1 % 65536, h.reserved1 / 65536 % 65536,
   h.reserved2 % 65536,
   h.chksum % 65536]

/-- `HeaderChecksum` from SDTFile.c: sum the first `BH_HDR_LENGTH/2 - 1 = 20`
16-bit words of the header (i.e. everything except the `chksum` field itself)
with 16-bit wraparound, and return `-sum + BH_HEADER_CHKSUM` in 16-bit
arithmetic. -/
def HeaderChecksum (h : BHFileHeader) : Nat :=
  (BH_HEADER_CHKSUM + (65536 - ((headerWords h).take 20).sum % 65536)) % 65536

/-- The modelled `FILE*`: file contents, current position, and the oracle
deciding the success of each upcoming `fwrite`/`fseek` call. -/
structure FS where
  bytes : List Nat
  pos : Nat
  oracle : List Bool
deriving DecidableEq

/-- Overwrite/extend `c` at position `p` with `bs` (zero-padding if `p` is
past the end, which never happens in the modelled traces). -/
def writeAt (c : List Nat) (p : Nat) (bs : List Nat) : List Nat :=
  c.take p ++ List.replicate (p - c.length) 0 ++ bs ++ c.drop (p + bs.length)

/-- Modelled `fwrite`: succeeds or fails according to the oracle; a failed
write transfers nothing. -/
def fwriteB (bs : List Nat) (s : FS) : Bool × FS :=
  let ok := s.oracle.headD true
  let s1 : FS := { s with oracle := s.oracle.tail }
  if ok then
    (true, { s1 with bytes := writeAt s1.bytes s1.pos bs,
                     pos := s1.pos + bs.length })
  else (false, s1)

/-- Modelled `fseek(..., SEEK_SET)`. -/
def fseekB (p : Nat) (s : FS) : Bool × FS :=
  let ok := s.oracle.headD true
  let s1 : FS := { s with oracle := s.oracle.tail }
  if ok then (true, { s1 with pos := p }) else (false, s1)

/-- Character codes of a string (the model stores file bytes as `Nat`). -/
def charBytes (s : String) : List Nat := s.toList.map Char.toNat

/-- Modelled from the spec: `fcs_data_identifier` ("FIFO Image mode data")
from the missing BH header; the claims do not depend on its text. -/
def fcs_data_identifier : String := "SPC FCS Data File"

/-- The identification text written by `WriteSDTIdentification` (the
`snprintf` format string of SDTFile.c with the data fields substituted). -/
def idString (d : SDTFileData) : String :=
  "*IDENTIFICAION\r\n  ID        : \x04" ++ fcs_data_identifier ++
  "\x04\r\n  Title     : OpenScan FLIM Image\r\n  Version   : 3  980 M\r\n  Revision  : " ++
  toString d.histogramBits ++ " bits ADC\r\n  Date      : " ++ d.date ++
  "\r\n  Time      : " ++ d.time ++
  "\r\n  Author    : Unknown\r\n  Company   : Unknown\r\n  Contents  : FLIM histogram(s) generated by OpenScan\r\n*END\r\n\r\n"

/-- Bytes of the identification block. -/
def idBytes (d : SDTFileData) : List Nat := charBytes (idString d)

/-- `WriteSDTIdentification`: the buffer-doubling loop succeeds once the
formatted text fits (doubling 512 → 1 MiB, so it fails without writing iff the
text length is at least 2^20 - 1); the text is then written without its NUL
terminator. -/
def WriteSDTIdentification (d : SDTFileData) (s : FS) : Nat × FS :=
  if 1048575 ≤ (idBytes d).length then (1, s)
  else
    let r := fwriteB (idBytes d) s
    (if r.1 then 0 else 1, r.2)

/-- The constant setup block `"*SETUP\r\n*END\r\n\r\n"`. -/
def setupBytes : List Nat := charBytes "*SETUP\r\n*END\r\n\r\n"

/-- `WriteSDTEmptySetup`. -/
def WriteSDTEmptySetup (s : FS) : Nat × FS :=
  let r := fwriteB setupBytes s
  (if r.1 then 0 else 1, r.2)

/-- Modelled from the spec: the 512 bytes of the packed `MeasureInfo` written
by `WriteSDTMeasurementDescBlock`.  The field layout lives in the missing
`SPC_data_file_structure_fixed.h`; no claim depends on the field values, only
on the fixed 512-byte size, so the content is abstracted to the zero-filled
block the code starts from (`memset(&b, 0, sizeof(b))`). -/
def measureInfoBytes : List Nat := List.replicate sizeofMeasureInfo 0

/-- `WriteSDTMeasurementDescBlock` (content abstracted, see
`measureInfoBytes`). -/
def WriteSDTMeasurementDescBlock (s : FS) : Nat × FS :=
  let r := fwriteB measureInfoBytes s
  (if r.1 then 0 else 1, r.2)

/-- The measurement-description loop of `WriteSDTFileP`: one block per
channel, aborting on the first write error. -/
def writeMeasBlocks : Nat → FS → Nat × FS
  | 0, s => (0, s)
  | n + 1, s =>
    let r := WriteSDTMeasurementDescBlock s
    if r.1 ≠ 0 then r else writeMeasBlocks n r.2

/-- The packed `BHFileBlockHeader` (22 bytes): `block_no` (16-bit),
`data_offs`, `next_block_offs` (32-bit, so `next_block_offs` is at byte
offset 6), `block_type`, `meas_desc_block_no` (16-bit), `lblock_no`,
`block_length` (32-bit). -/
structure BHFileBlockHeader where
  block_no : Nat
  data_offs : Nat
  next_block_offs : Nat
  block_type : Nat
  meas_desc_block_no : Nat
  lblock_no : Nat
  block_length : Nat
deriving DecidableEq

/-- Byte serialization of the packed `BHFileBlockHeader`. -/
def blockHeaderBytes (b : BHFileBlockHeader) : List Nat :=
  le16 b.block_no ++ le32 b.data_offs ++ le32 b.next_block_offs ++
  le16 b.block_type ++ le16 b.meas_desc_block_no ++ le32 b.lblock_no ++
  le32 b.block_length

/-- `numSamples` in `WriteSDTHistogramDataBlock`:
`width * height * (1 << histogramBits)`. -/
def numSamples (d : SDTFileData) : Nat :=
  d.width * d.height * 2 ^ d.histogramBits

/-- The histogram payload: `numSamples` 16-bit samples read from the caller's
array (modelled as a function, like the C pointer). -/
def histBytes (ns : Nat) (hist : Nat → Nat) : List Nat :=
  ((List.range ns).map fun i => le16 (hist i)).flatten

/-- The block header as filled in by `WriteSDTHistogramDataBlock` (including
the C-precedence quirk `(block_type >> 4) & 0xf << 20`, which parses as
`(block_type >> 4) & (0xf << 20)`). -/
def mkBlockHeader (d : SDTFileData) (chan : SDTFileChannelData)
    (headerOffset : Nat) : BHFileBlockHeader :=
  { block_no := 0,
    data_offs := headerOffset + 22,
    next_block_offs := 0,
    block_type := FIFO_DATA ||| IMG_BLOCK ||| DATA_USHORT,
    meas_desc_block_no := chan.channel,
    lblock_no := (d.moduleNumber <<< 24) |||
      (((FIFO_DATA ||| IMG_BLOCK ||| DATA_USHORT) >>> 4) &&& (0xf <<< 20)) |||
      chan.channel,
    block_length := numSamples d * 2 }

/-- `WriteSDTHistogramDataBlock`: record the offset of the
`next_block_offs` field of this block's header (`headerOffset + 6`) for later
patching, then write the header and the histogram payload.  Returns
`(err, nextBlockOffsetFieldOffset, file)`. -/
def WriteSDTHistogramDataBlock (d : SDTFileData) (chan : SDTFileChannelData)
    (hist : Nat → Nat) (s : FS) : Nat × Nat × FS :=
  let headerOffset := s.pos
  let nextOff := headerOffset + 6
  let r1 := fwriteB (blockHeaderBytes (mkBlockHeader d chan headerOffset)) s
  if ¬ r1.1 then (1, nextOff, r1.2)
  else
    let r2 := fwriteB (histBytes (numSamples d) hist) r1.2
    if ¬ r2.1 then (1, nextOff, r2.2)
    else (0, nextOff, r2.2)

/-- The patching prologue of the data-block loop for every block after the
first (`i != 0` in `WriteSDTFileP`): seek back to the previous block header's
`next_block_offs` field at `nextOff`, write the current position `pos` there,
and seek forward to `pos` again; any failing seek or write aborts with error
code 1. -/
def patchStep (nextOff pos : Nat) (s : FS) : Nat × FS :=
  let r1 := fseekB nextOff s
  if ¬ r1.1 then (1, r1.2)
  else
    let r2 := fwriteB (le32 pos) r1.2
    if ¬ r2.1 then (1, r2.2)
    else
      let r3 := fseekB pos r2.2
      if ¬ r3.1 then (1, r3.2)
      else (0, r3.2)

/-- The data-block loop of `WriteSDTFileP`: before each block after the first,
patch the previous block header's `next_block_offs` field with the current
position (`patchStep`); the first block's position is recorded in the header's
`data_block_offs`. -/
def writeDataBlocks (d : SDTFileData) (chans : Nat → SDTFileChannelData)
    (hists : Nat → Nat → Nat) :
    Nat → Nat → Nat → BHFileHeader → FS → Nat × BHFileHeader × FS
  | _, 0, _, hdr, s => (0, hdr, s)
  | i, m + 1, nextOff, hdr, s =>
    let pos := s.pos
    if i = 0 then
      let hdr1 := { hdr with data_block_offs := pos }
      let r := WriteSDTHistogramDataBlock d (chans i) (hists i) s
      if r.1 ≠ 0 then (r.1, hdr1, r.2.2)
      else writeDataBlocks d chans hists (i + 1) m r.2.1 hdr1 r.2.2
    else
      let rp := patchStep nextOff pos s
      if rp.1 ≠ 0 then (1, hdr, rp.2)
      else
        let r := WriteSDTHistogramDataBlock d (chans i) (hists i) rp.2
        if r.1 ≠ 0 then (r.1, hdr, r.2.2)
        else writeDataBlocks d chans hists (i + 1) m r.2.1 hdr r.2.2

/-- `ModuleTypeToHeaderBits` from SDTFile.c. -/
def ModuleTypeToHeaderBits (t : String) : Nat :=
  if t = "SPC-130" then 0x20
  else if t = "SPC-600" then 0x21
  else if t = "SPC-630" then 0x22
  else if t = "SPC-700" then 0x23
  else if t = "SPC-730" then 0x24
  else if t = "SPC-830" then 0x25
  else if t = "SPC-140" then 0x26
  else if t = "SPC-930" then 0x27
  else if t = "SPC-150" then 0x28
  else if t = "DPC-230" then 0x29
  else if t = "SPC-130EM" then 0x2a
  else if t = "SPC-160" then 0x2b
  else if t = "SPC-150N" then 0x2e
  else if t = "SPC-150NX" then 0x80
  else if t = "SPC-160X" then 0x81
  else if t = "SPC-160PCIE" then 0x82
  else 0

/-- The all-zero header `memset` starts from. -/
def zeroHeader : BHFileHeader :=
  { revision := 0, info_offs := 0, info_length := 0, setup_offs := 0,
    setup_length := 0, data_block_offs := 0, no_of_data_blocks := 0,
    data_block_length := 0, meas_desc_block_offs := 0,
    no_of_meas_desc_blocks := 0, meas_desc_block_length := 0,
    header_valid := 0, reserved1 := 0, reserved2 := 0, chksum := 0 }

/-- The header first written by `WriteSDTFileP`: only `revision` filled in and
`header_valid` set to `BH_HEADER_NOT_VALID`. -/
def initialHeader (d : SDTFileData) : BHFileHeader :=
  { zeroHeader with
      revision := 15 ||| (ModuleTypeToHeaderBits d.modelName <<< 4),
      header_valid := BH_HEADER_NOT_VALID }

/-- The tail of `WriteSDTFileP` after all blocks are written: set
`header_valid` to `BH_HEADER_VALID`, compute the checksum, seek back to file
offset 0 and rewrite the header. -/
def sdtFinalize (hdr : BHFileHeader) (s : FS) : Nat × FS :=
  let h7 := { hdr with header_valid := BH_HEADER_VALID }
  let h8 := { h7 with chksum := HeaderChecksum h7 }
  let r6 := fseekB 0 s
  if ¬ r6.1 then (1, r6.2)
  else
    let r7 := fwriteB (headerBytes h8) r6.2
    if ¬ r7.1 then (1, r7.2)
    else (0, r7.2)

/-- The data-block phase of `WriteSDTFileP`: fill in the data-block header
fields, run the data-block loop, then finalize. -/
def sdtPhaseData (d : SDTFileData) (chans : Nat → SDTFileChannelData)
    (hists : Nat → Nat → Nat) (h5 : BHFileHeader) (s : FS) : Nat × FS :=
  let h6 := { h5 with no_of_data_blocks := d.numChannels,
                      data_block_length := numSamples d * 2,
                      reserved1 := d.numChannels }
  let r5 := writeDataBlocks d chans hists 0 d.numChannels 4294967295 h6 s
  if r5.1 ≠ 0 then (r5.1, r5.2.2)
  else sdtFinalize r5.2.1 r5.2.2

/-- The measurement-description phase of `WriteSDTFileP`: record the setup
length and the measurement-description block geometry in the header, write one
block per channel, then continue with the data blocks. -/
def sdtPhaseMeas (d : SDTFileData) (chans : Nat → SDTFileChannelData)
    (hists : Nat → Nat → Nat) (h3 : BHFileHeader) (s : FS) : Nat × FS :=
  let h4 := { h3 with setup_length := s.pos - h3.setup_offs }
  let h5 := { h4 with meas_desc_block_offs := s.pos,
                      no_of_meas_desc_blocks := d.numChannels,
                      meas_desc_block_length := sizeofMeasureInfo }
  let r4 := writeMeasBlocks d.numChannels s
  if r4.1 ≠ 0 then (r4.1, r4.2)
  else sdtPhaseData d chans hists h5 r4.2

/-- The setup phase of `WriteSDTFileP`: record the identification length and
the setup offset in the header, write the empty setup block, then continue. -/
def sdtPhaseSetup (d : SDTFileData) (chans : Nat → SDTFileChannelData)
    (hists : Nat → Nat → Nat) (h1 : BHFileHeader) (s : FS) : Nat × FS :=
  let h2 := { h1 with info_length := s.pos - h1.info_offs }
  let h3 := { h2 with setup_offs := s.pos }
  let r3 := WriteSDTEmptySetup s
  if r3.1 ≠ 0 then (r3.1, r3.2)
  else sdtPhaseMeas d chans hists h3 r3.2

/-- The identification phase of `WriteSDTFileP`: record the identification
offset in the header, write the identification text, then continue. -/
def sdtPhaseId (d : SDTFileData) (chans : Nat → SDTFileChannelData)
    (hists : Nat → Nat → Nat) (h0 : BHFileHeader) (s : FS) : Nat × FS :=
  let h1 := { h0 with info_offs := s.pos }
  let r2 := WriteSDTIdentification d s
  if r2.1 ≠ 0 then (r2.1, r2.2)
  else sdtPhaseSetup d chans hists h1 r2.2

/-- `WriteSDTFileP` from SDTFile.c: write the header marked
`BH_HEADER_NOT_VALID`, then the identification block, the empty setup block,
one measurement-description block per channel and one chained data block per
channel, then seek back to offset 0 and rewrite the header marked
`BH_HEADER_VALID` with its checksum.  Any failing write or seek aborts with a
nonzero error code.  (The sequential body of the C function is split into the
`sdtPhase*` helpers above, one per block kind, with the header-so-far passed
along.) -/
def WriteSDTFileP (d : SDTFileData) (chans : Nat → SDTFileChannelData)
    (hists : Nat → Nat → Nat) (s : FS) : Nat × FS :=
  let h0 := initialHeader d
  let r1 := fwriteB (headerBytes h0) s
  if ¬ r1.1 then (1, r1.2)
  else sdtPhaseId d chans hists h0 r1.2

end SDT

namespace SDT

theorem le16_length (n : Nat) : (le16 n).length = 2 := rfl

theorem le32_length (n : Nat) : (le32 n).length = 4 := rfl

theorem headerBytes_length (h : BHFileHeader) :
    (headerBytes h).length = 42 := by
  simp [headerBytes, le16, le32]

theorem blockHeaderBytes_length (b : BHFileBlockHeader) :
    (blockHeaderBytes b).length = 22 := by
  simp [blockHeaderBytes, le16, le32]

theorem measureInfoBytes_length : measureInfoBytes.length = 512 := by
  simp [measureInfoBytes, sizeofMeasureInfo]

theorem setupBytes_length : setupBytes.length = 16 := rfl

theorem histBytes_length (ns : Nat) (hist : Nat → Nat) :
    (histBytes ns hist).length = 2 * ns := by
  simp only [histBytes, List.length_flatten, List.map_map]
  have h1 : (List.map (List.length ∘ fun i => le16 (hist i)) (List.range ns)) =
      List.replicate ns 2 := by
    have : (List.length ∘ fun i => le16 (hist i)) = Function.const Nat 2 := by
      funext i
      rfl
    rw [this, List.map_const, List.length_range]
  rw [h1, List.sum_replicate, smul_eq_mul]
  omega

theorem writeAt_append (c bs : List Nat) : writeAt c c.length bs = c ++ bs := by
  simp [writeAt, List.drop_eq_nil_iff.mpr (by omega : c.length ≤ c.length + bs.length)]

theorem writeAt_nil (bs : List Nat) : writeAt [] 0 bs = bs := by
  simpa using writeAt_append [] bs

theorem writeAt_length (c : List Nat) (p : Nat) (bs : List Nat) :
    (writeAt c p bs).length = max c.length (p + bs.length) := by
  simp [writeAt, List.length_take, List.length_replicate, List.length_drop]
  omega

theorem writeAt_take (c : List Nat) (p : Nat) (bs : List Nat) (n : Nat)
    (hp : n ≤ p) (hc : n ≤ c.length) :
    (writeAt c p bs).take n = c.take n := by
  have h1 : n ≤ (c.take p).length := by
    simp [List.length_take]
    omega
  rw [writeAt, List.append_assoc, List.append_assoc,
    List.take_append_of_le_length h1, List.take_take]
  congr 1
  omega

theorem writeAt_prefix (a b bs : List Nat) (q : Nat) :
    writeAt (a ++ b) (a.length + q) bs = a ++ writeAt b q bs := by
  unfold writeAt
  rw [List.take_append, List.length_append, add_assoc, List.drop_append]
  have hrep : a.length + q - (a.length + b.length) = q - b.length := by omega
  rw [hrep]
  simp [List.append_assoc]

/-- Read `n` bytes of a file at offset `off`. -/
def byteRegion (bs : List Nat) (off n : Nat) : List Nat :=
  (bs.drop off).take n

theorem byteRegion_append_left {a : List Nat} (b : List Nat) {off n : Nat}
    (h : off + n ≤ a.length) :
    byteRegion (a ++ b) off n = byteRegion a off n := by
  unfold byteRegion
  rw [List.drop_append_of_le_length (by omega), List.take_append_of_le_length]
  simp [List.length_drop]
  omega

theorem byteRegion_append_right (a b : List Nat) (t n : Nat) :
    byteRegion (a ++ b) (a.length + t) n = byteRegion b t n := by
  unfold byteRegion
  rw [List.drop_append]

theorem byteRegion_of_take {bs c : List Nat} {off n k : Nat}
    (hk : off + n ≤ k) (h : bs.take k = c) :
    byteRegion bs off n = byteRegion c off n := by
  subst h
  unfold byteRegion
  rw [List.drop_take, List.take_take]
  congr 1
  omega

/-- Reassemble a byte list into 16-bit little-endian words, as the
`unsigned short *` cast in `HeaderChecksum` reads the packed header. -/
def toWords16 : List Nat → List Nat
  | a :: b :: rest => (a + 256 * b) :: toWords16 rest
  | [a] => [a]
  | [] => []

theorem toWords16_le16 (v : Nat) (l : List Nat) :
    toWords16 (le16 v ++ l) = (v % 65536) :: toWords16 l := by
  show (v % 256 + 256 * (v / 256 % 256)) :: toWords16 l = (v % 65536) :: toWords16 l
  congr 1
  have : (65536 : Nat) = 256 * 256 := by norm_num
  rw [this, Nat.mod_mul]

theorem toWords16_le32 (v : Nat) (l : List Nat) :
    toWords16 (le32 v ++ l) =
      (v % 65536) :: (v / 65536 % 65536) :: toWords16 l := by
  show (v % 256 + 256 * (v / 256 % 256)) ::
      (v / 65536 % 256 + 256 * (v / 16777216 % 256)) :: toWords16 l = _
  have h2 : (65536 : Nat) = 256 * 256 := by norm_num
  congr 1
  · rw [h2, Nat.mod_mul]
  congr 1
  · have h3 : v / 16777216 = v / 65536 / 256 := by
      rw [Nat.div_div_eq_div_mul]
    rw [h3, h2, Nat.mod_mul]

theorem toWords16_headerBytes (h : BHFileHeader) :
    toWords16 (headerBytes h) = headerWords h := by
  have h2 : (65536 : Nat) = 256 * 256 := by norm_num
  have hck : toWords16 (le16 h.chksum) = [h.chksum % 65536] := by
    show [h.chksum % 256 + 256 * (h.chksum / 256 % 256)] = [h.chksum % 65536]
    rw [h2, Nat.mod_mul]
  simp only [headerBytes, List.append_assoc]
  rw [toWords16_le16, toWords16_le32, toWords16_le16, toWords16_le32,
    toWords16_le16, toWords16_le32, toWords16_le16, toWords16_le32,
    toWords16_le32, toWords16_le16, toWords16_le16, toWords16_le16,
    toWords16_le32, toWords16_le16, hck]
  rfl

end SDT

namespace SDT

theorem fwriteB_true (bs : List Nat) (s : FS) (h : (fwriteB bs s).1 = true) :
    (fwriteB bs s).2.bytes = writeAt s.bytes s.pos bs ∧
    (fwriteB bs s).2.pos = s.pos + bs.length := by
  by_cases hok : s.oracle.head?.getD true = true
  · simp [fwriteB, hok]
  · simp [fwriteB, hok] at h

theorem fwriteB_false (bs : List Nat) (s : FS) (h : (fwriteB bs s).1 = false) :
    (fwriteB bs s).2.bytes = s.bytes ∧ (fwriteB bs s).2.pos = s.pos := by
  by_cases hok : s.oracle.head?.getD true = true
  · simp [fwriteB, hok] at h
  · simp [fwriteB, hok]

theorem fseekB_bytes (p : Nat) (s : FS) : (fseekB p s).2.bytes = s.bytes := by
  by_cases hok : s.oracle.head?.getD true = true <;> simp [fseekB, hok]

theorem fseekB_true (p : Nat) (s : FS) (h : (fseekB p s).1 = true) :
    (fseekB p s).2.pos = p := by
  by_cases hok : s.oracle.head?.getD true = true
  · simp [fseekB, hok]
  · simp [fseekB, hok] at h

theorem fseekB_false (p : Nat) (s : FS) (h : (fseekB p s).1 = false) :
    (fseekB p s).2.pos = s.pos := by
  by_cases hok : s.oracle.head?.getD true = true
  · simp [fseekB, hok] at h
  · simp [fseekB, hok]

theorem WriteSDTIdentification_spec (d : SDTFileData) (s : FS)
    (hend : s.pos = s.bytes.length) :
    ((WriteSDTIdentification d s).1 = 0 →
      (WriteSDTIdentification d s).2.bytes = s.bytes ++ idBytes d ∧
      (WriteSDTIdentification d s).2.pos =
        (s.bytes ++ idBytes d).length) ∧
    ((WriteSDTIdentification d s).1 ≠ 0 →
      (WriteSDTIdentification d s).1 = 1 ∧
      (WriteSDTIdentification d s).2.bytes = s.bytes) := by
  by_cases hbig : 1048575 ≤ (idBytes d).length
  · simp [WriteSDTIdentification, hbig]
  · by_cases hok : s.oracle.head?.getD true = true
    · simp [WriteSDTIdentification, hbig, fwriteB, hok, hend, writeAt_append]
    · simp [WriteSDTIdentification, hbig, fwriteB, hok]

theorem WriteSDTEmptySetup_spec (s : FS) (hend : s.pos = s.bytes.length) :
    ((WriteSDTEmptySetup s).1 = 0 →
      (WriteSDTEmptySetup s).2.bytes = s.bytes ++ setupBytes ∧
      (WriteSDTEmptySetup s).2.pos = (s.bytes ++ setupBytes).length) ∧
    ((WriteSDTEmptySetup s).1 ≠ 0 →
      (WriteSDTEmptySetup s).1 = 1 ∧
      (WriteSDTEmptySetup s).2.bytes = s.bytes) := by
  by_cases hok : s.oracle.head?.getD true = true
  · simp [WriteSDTEmptySetup, fwriteB, hok, hend, writeAt_append]
  · simp [WriteSDTEmptySetup, fwriteB, hok]

theorem writeMeasBlocks_spec (n : Nat) : ∀ s : FS, s.pos = s.bytes.length →
    ((writeMeasBlocks n s).1 = 0 →
      (writeMeasBlocks n s).2.bytes =
        s.bytes ++ (List.replicate n measureInfoBytes).flatten ∧
      (writeMeasBlocks n s).2.pos = (writeMeasBlocks n s).2.bytes.length) ∧
    ((writeMeasBlocks n s).1 ≠ 0 →
      (writeMeasBlocks n s).1 = 1 ∧
      ∃ t, (writeMeasBlocks n s).2.bytes = s.bytes ++ t) := by
  induction n with
  | zero =>
    intro s hend
    simp [writeMeasBlocks, hend]
  | succ n ih =>
    intro s hend
    by_cases hok : s.oracle.head?.getD true = true
    · have hstep : WriteSDTMeasurementDescBlock s =
          (0, ⟨s.bytes ++ measureInfoBytes, (s.bytes ++ measureInfoBytes).length,
               s.oracle.tail⟩) := by
        simp [WriteSDTMeasurementDescBlock, fwriteB, hok, hend, writeAt_append,
          List.length_append]
      have hunfold : writeMeasBlocks (n + 1) s =
          writeMeasBlocks n
            ⟨s.bytes ++ measureInfoBytes, (s.bytes ++ measureInfoBytes).length,
             s.oracle.tail⟩ := by
        simp only [writeMeasBlocks, hstep]
        simp
      rw [hunfold]
      obtain ⟨hsucc, herr⟩ :=
        ih ⟨s.bytes ++ measureInfoBytes, (s.bytes ++ measureInfoBytes).length,
            s.oracle.tail⟩ rfl
      constructor
      · intro h0
        obtain ⟨hb, hp⟩ := hsucc h0
        refine ⟨?_, hp⟩
        rw [hb]
        show _ = s.bytes ++ (measureInfoBytes :: List.replicate n measureInfoBytes).flatten
        rw [List.flatten_cons, List.append_assoc]
      · intro h0
        obtain ⟨he1, t, ht⟩ := herr h0
        exact ⟨he1, measureInfoBytes ++ t, by rw [ht, List.append_assoc]⟩
    · have hstep1 : (WriteSDTMeasurementDescBlock s).1 = 1 := by
        simp [WriteSDTMeasurementDescBlock, fwriteB, hok]
      have hstep2 : (WriteSDTMeasurementDescBlock s).2.bytes = s.bytes := by
        simp [WriteSDTMeasurementDescBlock, fwriteB, hok]
      have hunfold : writeMeasBlocks (n + 1) s = WriteSDTMeasurementDescBlock s := by
        simp only [writeMeasBlocks, hstep1]
        simp
      rw [hunfold]
      constructor
      · intro h0
        rw [hstep1] at h0
        exact absurd h0 one_ne_zero
      · intro _
        exact ⟨hstep1, [], by rw [hstep2, List.append_nil]⟩

end SDT

namespace SDT

theorem writeAt_append2 (a b bs : List Nat) :
    writeAt (a ++ b) (a.length + b.length) bs = a ++ b ++ bs := by
  rw [← List.length_append, writeAt_append]

theorem WriteSDTHistogramDataBlock_spec (d : SDTFileData)
    (chan : SDTFileChannelData) (hist : Nat → Nat) (s : FS)
    (hend : s.pos = s.bytes.length) :
    (WriteSDTHistogramDataBlock d chan hist s).2.1 = s.bytes.length + 6 ∧
    ((WriteSDTHistogramDataBlock d chan hist s).1 = 0 →
      (WriteSDTHistogramDataBlock d chan hist s).2.2.bytes =
        s.bytes ++ (blockHeaderBytes (mkBlockHeader d chan s.bytes.length) ++
          histBytes (numSamples d) hist) ∧
      (WriteSDTHistogramDataBlock d chan hist s).2.2.pos =
        (WriteSDTHistogramDataBlock d chan hist s).2.2.bytes.length) ∧
    ((WriteSDTHistogramDataBlock d chan hist s).1 ≠ 0 →
      (WriteSDTHistogramDataBlock d chan hist s).1 = 1 ∧
      ∃ t, (WriteSDTHistogramDataBlock d chan hist s).2.2.bytes =
        s.bytes ++ t) := by
  by_cases hok1 : s.oracle.head?.getD true = true
  · by_cases hok2 : s.oracle[1]?.getD true = true
    · simp [WriteSDTHistogramDataBlock, fwriteB, hok1, hok2, hend,
        writeAt_append, writeAt_append2, List.append_assoc, Nat.add_assoc]
    · refine ⟨?_, ?_, ?_⟩
      · simp [WriteSDTHistogramDataBlock, fwriteB, hok1, hok2, hend]
      · intro h0
        exfalso
        simp [WriteSDTHistogramDataBlock, fwriteB, hok1, hok2, hend] at h0
      · intro _
        refine ⟨by simp [WriteSDTHistogramDataBlock, fwriteB, hok1, hok2], ?_⟩
        refine ⟨blockHeaderBytes (mkBlockHeader d chan s.bytes.length), ?_⟩
        simp [WriteSDTHistogramDataBlock, fwriteB, hok1, hok2, hend,
          writeAt_append]
  · refine ⟨?_, ?_, ?_⟩
    · simp [WriteSDTHistogramDataBlock, fwriteB, hok1, hend]
    · intro h0
      exfalso
      simp [WriteSDTHistogramDataBlock, fwriteB, hok1] at h0
    · intro _
      refine ⟨by simp [WriteSDTHistogramDataBlock, fwriteB, hok1], [], ?_⟩
      simp [WriteSDTHistogramDataBlock, fwriteB, hok1]

theorem writeAt6_cons (a0 a1 b0 b1 b2 b3 x0 x1 x2 x3 v0 v1 v2 v3 : Nat)
    (t : List Nat) :
    writeAt (a0 :: a1 :: b0 :: b1 :: b2 :: b3 :: x0 :: x1 :: x2 :: x3 :: t) 6
        [v0, v1, v2, v3] =
      a0 :: a1 :: b0 :: b1 :: b2 :: b3 :: v0 :: v1 :: v2 :: v3 :: t := by
  have hrep : List.replicate
      ((6 : Nat) -
        (a0 :: a1 :: b0 :: b1 :: b2 :: b3 :: x0 :: x1 :: x2 :: x3 :: t).length)
      (0 : Nat) = [] := by
    have h0 : (6 : Nat) -
        (a0 :: a1 :: b0 :: b1 :: b2 :: b3 :: x0 :: x1 :: x2 :: x3 :: t).length =
        0 := by
      simp
    rw [h0]
    rfl
  unfold writeAt
  rw [hrep]
  rfl

section DataBlocks

variable (d : SDTFileData) (chans : Nat → SDTFileChannelData)
  (hists : Nat → Nat → Nat)

/-- Total size of one data block: 22-byte block header plus the 16-bit
samples. -/
def blockSize : Nat := 22 + 2 * numSamples d

/-- The bytes of data block `j` laid out at file offset `base` with a given
`next_block_offs` value. -/
def blockFull (j base next : Nat) : List Nat :=
  blockHeaderBytes
      { mkBlockHeader d (chans j) base with next_block_offs := next } ++
    histBytes (numSamples d) (hists j)

theorem blockFull_length (j base next : Nat) :
    (blockFull d chans hists j base next).length = blockSize d := by
  simp [blockFull, blockHeaderBytes_length, histBytes_length, blockSize,
    List.length_append]

theorem blockFull_zero (j base : Nat) :
    blockFull d chans hists j base 0 =
      blockHeaderBytes (mkBlockHeader d (chans j) base) ++
        histBytes (numSamples d) (hists j) := rfl

/-- The byte image of the chained data blocks `j, j+1, ...` (`m` of them)
laid out contiguously from offset `base`: every block's `next_block_offs`
holds the offset of its successor's header, the last block's holds 0. -/
def chainFrom : Nat → Nat → Nat → List Nat
  | _, 0, _ => []
  | j, m + 1, base =>
    blockFull d chans hists j base
        (if m = 0 then 0 else base + blockSize d) ++
      chainFrom (j + 1) m (base + blockSize d)

theorem patch_blockFull (j base next v : Nat) (rest : List Nat) :
    writeAt (blockFull d chans hists j base next ++ rest) 6 (le32 v) =
      blockFull d chans hists j base v ++ rest := by
  simp only [blockFull, blockHeaderBytes, mkBlockHeader, le16, le32,
    List.cons_append, List.nil_append, List.append_assoc]
  rw [writeAt6_cons]

theorem patch_blockFull0 (j base next v : Nat) :
    writeAt (blockFull d chans hists j base next) 6 (le32 v) =
      blockFull d chans hists j base v := by
  have h := patch_blockFull d chans hists j base next v []
  simpa using h

end DataBlocks

end SDT

namespace SDT

theorem patchStep_spec (nextOff pos : Nat) (s : FS) (ep : Nat) (sp : FS)
    (hp : patchStep nextOff pos s = (ep, sp)) :
    (ep = 0 → sp.bytes = writeAt s.bytes nextOff (le32 pos) ∧ sp.pos = pos) ∧
    (ep ≠ 0 → ep = 1 ∧
      (sp.bytes = s.bytes ∨ sp.bytes = writeAt s.bytes nextOff (le32 pos))) := by
  by_cases hc1 : s.oracle.head?.getD true = true
  · by_cases hc2 : s.oracle[1]?.getD true = true
    · by_cases hc3 : s.oracle[2]?.getD true = true
      · simp [patchStep, fseekB, fwriteB, hc1, hc2, hc3] at hp
        obtain ⟨rfl, rfl⟩ := hp
        simp
      · simp [patchStep, fseekB, fwriteB, hc1, hc2, hc3] at hp
        obtain ⟨rfl, rfl⟩ := hp
        simp
    · simp [patchStep, fseekB, fwriteB, hc1, hc2] at hp
      obtain ⟨rfl, rfl⟩ := hp
      simp
  · simp [patchStep, fseekB, hc1] at hp
    obtain ⟨rfl, rfl⟩ := hp
    simp

section DataBlocksLoop

variable (d : SDTFileData) (chans : Nat → SDTFileChannelData)
  (hists : Nat → Nat → Nat)

theorem writeDataBlocks_loop (m : Nat) :
    ∀ (j nextOff : Nat) (hdr : BHFileHeader) (s : FS) (pre : List Nat)
      (e : Nat) (hdr2 : BHFileHeader) (s2 : FS),
      s.bytes = pre ++ blockFull d chans hists j pre.length 0 →
      s.pos = s.bytes.length →
      42 ≤ pre.length →
      nextOff = pre.length + 6 →
      writeDataBlocks d chans hists (j + 1) m nextOff hdr s = (e, hdr2, s2) →
      (e = 0 →
        hdr2 = hdr ∧
        s2.bytes = pre ++ chainFrom d chans hists j (m + 1) pre.length ∧
        s2.pos = s2.bytes.length) ∧
      (e ≠ 0 → e = 1 ∧ s2.bytes.take 42 = s.bytes.take 42) := by
  induction m with
  | zero =>
    intro j nextOff hdr s pre e hdr2 s2 hbytes hpos h42 hno h
    simp only [writeDataBlocks, Prod.mk.injEq] at h
    obtain ⟨rfl, rfl, rfl⟩ := h
    constructor
    · intro _
      refine ⟨rfl, ?_, hpos⟩
      rw [hbytes]
      simp [chainFrom]
    · intro h0
      exact absurd rfl h0
  | succ m ih =>
    intro j nextOff hdr s pre e hdr2 s2 hbytes hpos h42 hno h
    have hB : (blockFull d chans hists j pre.length 0).length = blockSize d :=
      blockFull_length d chans hists j pre.length 0
    have hL : s.pos = pre.length + blockSize d := by
      rw [hpos, hbytes, List.length_append, hB]
    simp only [writeDataBlocks] at h
    rw [if_neg (Nat.succ_ne_zero j)] at h
    rcases hp : patchStep nextOff s.pos s with ⟨ep, sp⟩
    simp only [hp] at h
    obtain ⟨hpok, hperr⟩ := patchStep_spec nextOff s.pos s ep sp hp
    by_cases hep : ep = 0
    · obtain ⟨hspb, hspp⟩ := hpok hep
      have hpatched : sp.bytes =
          pre ++ blockFull d chans hists j pre.length s.pos := by
        rw [hspb, hbytes, hno, writeAt_prefix, patch_blockFull0]
      have hsplen : sp.bytes.length = pre.length + blockSize d := by
        rw [hpatched, List.length_append, blockFull_length]
      have hspend : sp.pos = sp.bytes.length := by
        rw [hspp, hsplen, hL]
      simp only [hep] at h
      rw [if_neg (by simp)] at h
      rcases hW : WriteSDTHistogramDataBlock d (chans (j + 1)) (hists (j + 1))
          sp with ⟨e4, no4, s4⟩
      obtain ⟨hnext, hWok, hWerr⟩ := WriteSDTHistogramDataBlock_spec d
        (chans (j + 1)) (hists (j + 1)) sp hspend
      simp only [hW] at hnext hWok hWerr h
      by_cases he4 : e4 = 0
      · obtain ⟨hs4b, hs4p⟩ := hWok he4
        simp only [he4] at h
        rw [if_neg (by simp)] at h
        have hs4b2 : s4.bytes =
            (pre ++ blockFull d chans hists j pre.length s.pos) ++
              blockFull d chans hists (j + 1) (pre.length + blockSize d) 0 := by
          rw [hs4b, hsplen, hpatched, ← blockFull_zero]
        have hlen2 :
            (pre ++ blockFull d chans hists j pre.length s.pos).length =
              pre.length + blockSize d := by
          rw [List.length_append, blockFull_length]
        obtain ⟨ihok, iherr⟩ := ih (j + 1) no4 hdr s4
          (pre ++ blockFull d chans hists j pre.length s.pos) e hdr2 s2
          (by rw [hs4b2, hlen2]) hs4p
          (by rw [hlen2]; omega)
          (by rw [hnext, hsplen, hlen2]) h
        constructor
        · intro he0
          obtain ⟨hh, hb2, hp2⟩ := ihok he0
          refine ⟨hh, ?_, hp2⟩
          rw [hb2, hlen2]
          rw [show chainFrom d chans hists j (m + 1 + 1) pre.length =
              blockFull d chans hists j pre.length
                  (pre.length + blockSize d) ++
                chainFrom d chans hists (j + 1) (m + 1)
                  (pre.length + blockSize d) from by
            simp [chainFrom]]
          rw [← List.append_assoc, hL]
        · intro he0
          obtain ⟨he1, ht⟩ := iherr he0
          refine ⟨he1, ?_⟩
          rw [ht, hs4b2, hbytes, List.append_assoc,
            List.take_append_of_le_length h42,
            List.take_append_of_le_length h42]
      · rw [if_pos (by simp [he4])] at h
        simp only [Prod.mk.injEq] at h
        obtain ⟨rfl, rfl, rfl⟩ := h
        obtain ⟨he1, t, hs4b⟩ := hWerr he4
        constructor
        · intro h0
          exact absurd h0 he4
        · intro _
          refine ⟨he1, ?_⟩
          rw [hs4b, hpatched, hbytes, List.append_assoc,
            List.take_append_of_le_length h42,
            List.take_append_of_le_length h42]
    · obtain ⟨he1, hsb⟩ := hperr hep
      rw [if_pos (by simp [hep])] at h
      simp only [Prod.mk.injEq] at h
      obtain ⟨rfl, rfl, rfl⟩ := h
      constructor
      · intro h0
        exact absurd h0 one_ne_zero
      · intro _
        refine ⟨rfl, ?_⟩
        rcases hsb with hsb | hsb
        · rw [hsb]
        · rw [hsb, hbytes, hno, writeAt_prefix, patch_blockFull0,
            List.take_append_of_le_length h42,
            List.take_append_of_le_length h42]

end DataBlocksLoop

end SDT

namespace SDT

theorem writeAt_head (c bs : List Nat) : writeAt c 0 bs = bs ++ c.drop bs.length := by
  simp [writeAt]

theorem measFlat_length (n : Nat) :
    (List.replicate n measureInfoBytes).flatten.length = n * 512 := by
  rw [List.length_flatten, List.map_replicate, measureInfoBytes_length,
    List.sum_replicate, smul_eq_mul]

theorem drop42_headerBytes (h : BHFileHeader) (rest : List Nat) :
    (headerBytes h ++ rest).drop 42 = rest := by
  rw [show (42 : Nat) = (headerBytes h).length from (headerBytes_length h).symm,
    List.drop_left]

theorem sdtFinalize_spec (hdr : BHFileHeader) (s : FS) (e : Nat) (sf : FS)
    (h : sdtFinalize hdr s = (e, sf)) :
    (e = 0 → sf.bytes =
      headerBytes
          { hdr with
              header_valid := BH_HEADER_VALID,
              chksum :=
                HeaderChecksum { hdr with header_valid := BH_HEADER_VALID } } ++
        s.bytes.drop 42) ∧
    (e ≠ 0 → e = 1 ∧ sf.bytes = s.bytes) := by
  by_cases hc1 : s.oracle.head?.getD true = true
  · by_cases hc2 : s.oracle[1]?.getD true = true
    · simp [sdtFinalize, fseekB, fwriteB, hc1, hc2] at h
      obtain ⟨rfl, rfl⟩ := h
      constructor
      · intro _
        rw [writeAt_head, headerBytes_length]
      · intro h0
        exact absurd rfl h0
    · simp [sdtFinalize, fseekB, fwriteB, hc1, hc2] at h
      obtain ⟨rfl, rfl⟩ := h
      exact ⟨fun h0 => absurd h0 one_ne_zero, fun _ => ⟨rfl, rfl⟩⟩
  · simp [sdtFinalize, fseekB, hc1] at h
    obtain ⟨rfl, rfl⟩ := h
    exact ⟨fun h0 => absurd h0 one_ne_zero, fun _ => ⟨rfl, rfl⟩⟩

section TopLevel

variable (d : SDTFileData) (chans : Nat → SDTFileChannelData)
  (hists : Nat → Nat → Nat)

/-- The header after the data-block loop: the data-block geometry fields are
filled in, and (when there is at least one channel) `data_block_offs` records
the position where the first data block was written. -/
def hdrAfterData (d : SDTFileData) (h5 : BHFileHeader) (pos0 : Nat) :
    BHFileHeader :=
  let h6 := { h5 with
                no_of_data_blocks := d.numChannels,
                data_block_length := numSamples d * 2,
                reserved1 := d.numChannels }
  if d.numChannels = 0 then h6 else { h6 with data_block_offs := pos0 }

/-- A header as finalized by `sdtFinalize`: marked valid, with the checksum
over the valid-marked header. -/
def finalizedOf (hdr : BHFileHeader) : BHFileHeader :=
  { hdr with
      header_valid := BH_HEADER_VALID,
      chksum := HeaderChecksum { hdr with header_valid := BH_HEADER_VALID } }

set_option maxHeartbeats 1600000 in
theorem sdtPhaseData_spec (h5 : BHFileHeader) (s : FS) (e : Nat) (sf : FS)
    (hend : s.pos = s.bytes.length) (h42 : 42 ≤ s.bytes.length)
    (h : sdtPhaseData d chans hists h5 s = (e, sf)) :
    (e = 0 → sf.bytes =
      headerBytes (finalizedOf (hdrAfterData d h5 s.bytes.length)) ++
        ((s.bytes ++
          chainFrom d chans hists 0 d.numChannels s.bytes.length).drop 42)) ∧
    (e ≠ 0 → e = 1 ∧ sf.bytes.take 42 = s.bytes.take 42) := by
  simp only [sdtPhaseData] at h
  rcases hn : d.numChannels with _ | m
  · rw [hn] at h
    simp only [writeDataBlocks] at h
    rw [if_neg (by simp)] at h
    obtain ⟨hFok, hFerr⟩ := sdtFinalize_spec _ _ _ _ h
    constructor
    · intro he0
      rw [hFok he0]
      rw [show chainFrom d chans hists 0 0 s.bytes.length = ([] : List Nat)
        from rfl]
      rw [List.append_nil]
      congr 1
      simp [finalizedOf, hdrAfterData, hn]
    · intro he0
      obtain ⟨h1, h2⟩ := hFerr he0
      exact ⟨h1, by rw [h2]⟩
  · rw [hn] at h
    simp only [writeDataBlocks] at h
    rw [if_pos trivial] at h
    rw [hend] at h
    rcases hW0 : WriteSDTHistogramDataBlock d (chans 0) (hists 0) s
      with ⟨eW, noW, stW⟩
    obtain ⟨hWnext, hWok, hWerr⟩ :=
      WriteSDTHistogramDataBlock_spec d (chans 0) (hists 0) s hend
    simp only [hW0] at h hWnext hWok hWerr
    by_cases heW : eW = 0
    · rw [if_neg (show ¬(eW ≠ 0) from by simp [heW])] at h
      obtain ⟨hWb, hWp⟩ := hWok heW
      have hWb2 : stW.bytes =
          s.bytes ++ blockFull d chans hists 0 s.bytes.length 0 := by
        rw [hWb, blockFull_zero]
      rcases hR : writeDataBlocks d chans hists (0 + 1) m noW
          { h5 with
              no_of_data_blocks := m + 1,
              data_block_length := numSamples d * 2,
              reserved1 := m + 1,
              data_block_offs := s.bytes.length } stW with ⟨e5, hdr5, st5⟩
      obtain ⟨hLok, hLerr⟩ := writeDataBlocks_loop d chans hists m 0 noW
        { h5 with
            no_of_data_blocks := m + 1,
            data_block_length := numSamples d * 2,
            reserved1 := m + 1,
            data_block_offs := s.bytes.length } stW s.bytes e5 hdr5 st5
        hWb2 hWp h42 (by rw [hWnext]) hR
      simp only [hR] at h
      by_cases he5 : e5 = 0
      · rw [if_neg (show ¬(e5 ≠ 0) from by simp [he5])] at h
        obtain ⟨hhdr5, hb5, hp5⟩ := hLok he5
        obtain ⟨hFok, hFerr⟩ := sdtFinalize_spec _ _ _ _ h
        constructor
        · intro he0
          rw [hFok he0, hhdr5, hb5]
          simp [finalizedOf, hdrAfterData, hn]
        · intro he0
          obtain ⟨h1, h2⟩ := hFerr he0
          refine ⟨h1, ?_⟩
          rw [h2, hb5, List.take_append_of_le_length h42]
      · rw [if_pos (show e5 ≠ 0 from he5)] at h
        simp only [Prod.mk.injEq] at h
        obtain ⟨rfl, rfl⟩ := h
        obtain ⟨h1, h2⟩ := hLerr he5
        refine ⟨fun h0 => absurd h0 he5, fun _ => ⟨h1, ?_⟩⟩
        rw [h2, hWb2, List.take_append_of_le_length h42]
    · simp [heW] at h
      obtain ⟨rfl, rfl⟩ := h
      obtain ⟨h1, t, h2⟩ := hWerr heW
      refine ⟨fun h0 => absurd h0 heW, fun _ => ⟨h1, ?_⟩⟩
      rw [h2, List.take_append_of_le_length h42]

/-- Offset of the first data block: header (42) + identification text + setup
block (16) + one 512-byte measurement description per channel. -/
def dbOffs : Nat := 42 + (idBytes d).length + 16 + d.numChannels * 512

/-- The finalized header as assembled by `WriteSDTFileP` just before the
checksum is computed (`header_valid` already `BH_HEADER_VALID`, `chksum`
still the `memset` zero). -/
def validHeader : BHFileHeader :=
  { revision := 15 ||| (ModuleTypeToHeaderBits d.modelName <<< 4),
    info_offs := 42,
    info_length := (idBytes d).length,
    setup_offs := 42 + (idBytes d).length,
    setup_length := 16,
    data_block_offs := if d.numChannels = 0 then 0 else dbOffs d,
    no_of_data_blocks := d.numChannels,
    data_block_length := numSamples d * 2,
    meas_desc_block_offs := 42 + (idBytes d).length + 16,
    no_of_meas_desc_blocks := d.numChannels,
    meas_desc_block_length := sizeofMeasureInfo,
    header_valid := BH_HEADER_VALID,
    reserved1 := d.numChannels,
    reserved2 := 0,
    chksum := 0 }

/-- The header as finally rewritten at offset 0 on the success path. -/
def finalHeader : BHFileHeader :=
  { validHeader d with chksum := HeaderChecksum (validHeader d) }

/-- The byte image of the whole file on the success path. -/
def sdtFileBytes : List Nat :=
  headerBytes (finalHeader d) ++
    (idBytes d ++
      (setupBytes ++
        ((List.replicate d.numChannels measureInfoBytes).flatten ++
          chainFrom d chans hists 0 d.numChannels (dbOffs d))))

set_option maxHeartbeats 4000000 in
theorem WriteSDTFileP_spec (ora : List Bool) (e : Nat) (sf : FS)
    (h : WriteSDTFileP d chans hists ⟨[], 0, ora⟩ = (e, sf)) :
    (e = 0 → sf.bytes = sdtFileBytes d chans hists) ∧
    (e ≠ 0 → e = 1 ∧
      (sf.bytes = [] ∨
        sf.bytes.take 42 = headerBytes (initialHeader d))) := by
  rcases hw1 : fwriteB (headerBytes (initialHeader d)) ⟨[], 0, ora⟩
    with ⟨ok1, st1⟩
  simp only [WriteSDTFileP, hw1] at h
  by_cases hok1 : ok1 = true
  case neg =>
    rw [if_pos (by simp [hok1])] at h
    simp only [Prod.mk.injEq] at h
    obtain ⟨rfl, rfl⟩ := h
    have hfb := fwriteB_false (headerBytes (initialHeader d)) ⟨[], 0, ora⟩
      (by rw [hw1]; simpa using hok1)
    rw [hw1] at hfb
    refine ⟨fun h0 => absurd h0 one_ne_zero, fun _ => ⟨rfl, Or.inl ?_⟩⟩
    simpa using hfb.1
  case pos =>
    rw [if_neg (by simp [hok1])] at h
    have hft := fwriteB_true (headerBytes (initialHeader d)) ⟨[], 0, ora⟩
      (by rw [hw1]; exact hok1)
    rw [hw1] at hft
    have hb1 : st1.bytes = headerBytes (initialHeader d) := by
      have := hft.1
      simpa [writeAt_nil] using this
    have hp1 : st1.pos = 42 := by
      have := hft.2
      simpa [headerBytes_length] using this
    have htake1 : st1.bytes.take 42 = headerBytes (initialHeader d) := by
      rw [hb1, ← headerBytes_length (initialHeader d), List.take_length]
    have hend1 : st1.pos = st1.bytes.length := by
      rw [hp1, hb1, headerBytes_length]
    simp only [sdtPhaseId] at h
    rw [hp1] at h
    rcases hr2 : WriteSDTIdentification d st1 with ⟨e2, st2⟩
    obtain ⟨hIok, hIerr⟩ := WriteSDTIdentification_spec d st1 hend1
    simp only [hr2] at h hIok hIerr
    by_cases he2 : e2 = 0
    case neg =>
      rw [if_pos (show e2 ≠ 0 from he2)] at h
      simp only [Prod.mk.injEq] at h
      obtain ⟨rfl, rfl⟩ := h
      obtain ⟨h1, h2⟩ := hIerr he2
      exact ⟨fun h0 => absurd h0 he2,
        fun _ => ⟨h1, Or.inr (by rw [h2, htake1])⟩⟩
    case pos =>
      rw [if_neg (show ¬(e2 ≠ 0) from by simp [he2])] at h
      obtain ⟨hb2, hp2⟩ := hIok he2
      have hp2n : st2.pos = 42 + (idBytes d).length := by
        rw [hp2, List.length_append, hb1, headerBytes_length]
      have hend2 : st2.pos = st2.bytes.length := by
        rw [hp2, hb2]
      have htake2 : st2.bytes.take 42 = headerBytes (initialHeader d) := by
        rw [hb2, List.take_append_of_le_length
          (by simp [hb1, headerBytes_length])]
        exact htake1
      simp only [sdtPhaseSetup] at h
      rw [hp2n] at h
      rcases hr3 : WriteSDTEmptySetup st2 with ⟨e3, st3⟩
      obtain ⟨hSok, hSerr⟩ := WriteSDTEmptySetup_spec st2 hend2
      simp only [hr3] at h hSok hSerr
      by_cases he3 : e3 = 0
      case neg =>
        rw [if_pos (show e3 ≠ 0 from he3)] at h
        simp only [Prod.mk.injEq] at h
        obtain ⟨rfl, rfl⟩ := h
        obtain ⟨h1, h2⟩ := hSerr he3
        exact ⟨fun h0 => absurd h0 he3,
          fun _ => ⟨h1, Or.inr (by rw [h2, htake2])⟩⟩
      case pos =>
        rw [if_neg (show ¬(e3 ≠ 0) from by simp [he3])] at h
        obtain ⟨hb3, hp3⟩ := hSok he3
        have hlen3 : st3.bytes.length = 42 + (idBytes d).length + 16 := by
          rw [hb3, List.length_append, setupBytes_length, hb2,
            List.length_append, hb1, headerBytes_length]
        have hp3n : st3.pos = 42 + (idBytes d).length + 16 := by
          rw [hp3, ← hlen3, hb3]
        have hend3 : st3.pos = st3.bytes.length := by
          rw [hp3, hb3]
        have htake3 : st3.bytes.take 42 = headerBytes (initialHeader d) := by
          rw [hb3, List.take_append_of_le_length (by
            rw [hb2, List.length_append, hb1, headerBytes_length]; omega)]
          exact htake2
        simp only [sdtPhaseMeas] at h
        rw [hp3n] at h
        rcases hr4 : writeMeasBlocks d.numChannels st3 with ⟨e4, st4⟩
        obtain ⟨hMok, hMerr⟩ := writeMeasBlocks_spec d.numChannels st3 hend3
        simp only [hr4] at h hMok hMerr
        by_cases he4 : e4 = 0
        case neg =>
          rw [if_pos (show e4 ≠ 0 from he4)] at h
          simp only [Prod.mk.injEq] at h
          obtain ⟨rfl, rfl⟩ := h
          obtain ⟨h1, t, h2⟩ := hMerr he4
          refine ⟨fun h0 => absurd h0 he4, fun _ => ⟨h1, Or.inr ?_⟩⟩
          rw [h2, List.take_append_of_le_length (by rw [hlen3]; omega)]
          exact htake3
        case pos =>
          rw [if_neg (show ¬(e4 ≠ 0) from by simp [he4])] at h
          obtain ⟨hb4, hp4⟩ := hMok he4
          have hlen4 : st4.bytes.length = dbOffs d := by
            rw [hb4, List.length_append, measFlat_length, hlen3, dbOffs]
          have htake4 : st4.bytes.take 42 = headerBytes (initialHeader d) := by
            rw [hb4, List.take_append_of_le_length (by rw [hlen3]; omega)]
            exact htake3
          obtain ⟨hDok, hDerr⟩ := sdtPhaseData_spec d chans hists _ st4 e sf
            hp4 (by rw [hlen4, dbOffs]; omega) h
          constructor
          · intro he0
            rw [hDok he0, hlen4, hb4, hb3, hb2, hb1]
            simp only [List.append_assoc, sdtFileBytes]
            rw [drop42_headerBytes]
            congr 1
            by_cases hz : d.numChannels = 0 <;>
              simp [finalizedOf, hdrAfterData, finalHeader, validHeader,
                initialHeader, zeroHeader, hz, sizeofMeasureInfo]
          · intro he0
            obtain ⟨h1, h2⟩ := hDerr he0
            exact ⟨h1, Or.inr (by rw [h2, htake4])⟩
  
end TopLevel

end SDT

namespace SDT

theorem take42_headerBytes (hh : BHFileHeader) (rest : List Nat) :
    (headerBytes hh ++ rest).take 42 = headerBytes hh := by
  rw [show (42 : Nat) = (headerBytes hh).length from
    (headerBytes_length hh).symm, List.take_left]

theorem region_headerValid (hh : BHFileHeader) :
    byteRegion (headerBytes hh) 32 2 = le16 hh.header_valid := rfl

theorem region_chksum (hh : BHFileHeader) :
    byteRegion (headerBytes hh) 40 2 = le16 hh.chksum := rfl

theorem region_dataBlockOffs (hh : BHFileHeader) :
    byteRegion (headerBytes hh) 14 4 = le32 hh.data_block_offs := rfl

theorem region_blockNext (b : BHFileBlockHeader) :
    byteRegion (blockHeaderBytes b) 6 4 = le32 b.next_block_offs := rfl

theorem take20_headerWords (h : BHFileHeader) (c : Nat) :
    (headerWords { h with chksum := c }).take 20 = (headerWords h).take 20 :=
  rfl

theorem headerWords_snoc (h : BHFileHeader) (c : Nat) :
    headerWords { h with chksum := c } =
      (headerWords h).take 20 ++ [c % 65536] := rfl

/-- The checksum identity of `HeaderChecksum`: with the computed checksum
stored in the `chksum` field, the 16-bit sum of all 21 header words is
`BH_HEADER_CHKSUM`. -/
theorem sum_headerWords_final (h : BHFileHeader) :
    (headerWords { h with chksum := HeaderChecksum h }).sum % 65536 =
      BH_HEADER_CHKSUM := by
  rw [headerWords_snoc, List.sum_append, List.sum_cons, List.sum_nil, add_zero]
  simp only [HeaderChecksum, BH_HEADER_CHKSUM]
  omega

section ChainRegion

variable (d : SDTFileData) (chans : Nat → SDTFileChannelData)
  (hists : Nat → Nat → Nat)

theorem chainFrom_succ (j m base : Nat) :
    chainFrom d chans hists j (m + 1) base =
      blockFull d chans hists j base
          (if m = 0 then 0 else base + blockSize d) ++
        chainFrom d chans hists (j + 1) m (base + blockSize d) := rfl

theorem chainFrom_region (k : Nat) : ∀ (j m base : Nat), k + 1 < m →
    byteRegion (chainFrom d chans hists j m base) (k * blockSize d + 6) 4 =
      le32 (base + (k + 1) * blockSize d) := by
  induction k with
  | zero =>
    intro j m base hk
    rcases m with _ | m2
    · omega
    · rcases m2 with _ | m3
      · omega
      · rw [chainFrom_succ, if_neg (Nat.succ_ne_zero m3)]
        rw [show (0 * blockSize d + 6 : Nat) = 6 from by omega]
        have h1 : (6 : Nat) + 4 ≤
            (blockFull d chans hists j base (base + blockSize d)).length := by
          rw [blockFull_length]
          simp only [blockSize]
          omega
        rw [byteRegion_append_left _ h1]
        rw [show blockFull d chans hists j base (base + blockSize d) =
            blockHeaderBytes
              { mkBlockHeader d (chans j) base with
                  next_block_offs := base + blockSize d } ++
              histBytes (numSamples d) (hists j) from rfl]
        have h2 : (6 : Nat) + 4 ≤
            (blockHeaderBytes
              { mkBlockHeader d (chans j) base with
                  next_block_offs := base + blockSize d }).length := by
          rw [blockHeaderBytes_length]
          omega
        rw [byteRegion_append_left _ h2]
        rw [region_blockNext]
        show le32 (base + blockSize d) = le32 (base + (0 + 1) * blockSize d)
        congr 1
        ring
  | succ k ih =>
    intro j m base hk
    rcases m with _ | m2
    · omega
    · rw [chainFrom_succ]
      rw [show ((k + 1) * blockSize d + 6 : Nat) =
          (blockFull d chans hists j base
            (if m2 = 0 then 0 else base + blockSize d)).length +
            (k * blockSize d + 6) from by
        rw [blockFull_length]
        ring]
      rw [byteRegion_append_right]
      rw [ih (j + 1) m2 (base + blockSize d) (by omega)]
      congr 1
      ring

end ChainRegion

end SDT

open SDT in
/-- C7: on every successful `WriteSDTFileP` run the two checksum bytes written
at offset 40 of the file equal `HeaderChecksum` of the finalized header, and
consequently the 16-bit-wraparound sum of all 21 header words of the file
equals `BH_HEADER_CHKSUM` (i.e. the checksum is the negated 16-bit word sum of
the header, offset by the `BH_HEADER_CHKSUM` seed). -/
theorem claim_C7 (d : SDTFileData) (chans : Nat → SDTFileChannelData)
    (hists : Nat → Nat → Nat) (ora : List Bool) (sf : FS)
    (h : WriteSDTFileP d chans hists ⟨[], 0, ora⟩ = (0, sf)) :
    byteRegion sf.bytes 40 2 = le16 (HeaderChecksum (finalHeader d)) ∧
    (toWords16 (sf.bytes.take BH_HDR_LENGTH)).sum % 65536 =
      BH_HEADER_CHKSUM := by
  obtain ⟨hok, -⟩ := WriteSDTFileP_spec d chans hists ora 0 sf h
  have hb := hok rfl
  have htk : sf.bytes.take 42 = headerBytes (finalHeader d) := by
    rw [hb]
    exact take42_headerBytes _ _
  have hfh : finalHeader d =
      { validHeader d with chksum := HeaderChecksum (validHeader d) } := rfl
  have hck : HeaderChecksum (finalHeader d) = HeaderChecksum (validHeader d) := by
    simp only [HeaderChecksum]
    rw [hfh, take20_headerWords]
  constructor
  · rw [byteRegion_of_take (by omega) htk, region_chksum, hck, hfh]
  · rw [show sf.bytes.take BH_HDR_LENGTH = headerBytes (finalHeader d) from htk]
    rw [toWords16_headerBytes, hfh]
    exact sum_headerWords_final (validHeader d)

open SDT in
/-- C8: on every successful `WriteSDTFileP` run with at least one channel, the
file consists of the header, the identification text block, the empty setup
block, exactly one 512-byte measurement-description block per channel and
exactly one data block per channel (`sdtFileBytes`); the file header's
`data_block_offs` field (bytes 14..17) holds the offset of the first data
block, and for every data block after the first, the previous block header's
`next_block_offs` field (at byte offset 6 of that block header) holds the file
offset of the next block's header. -/
theorem claim_C8 (d : SDTFileData) (chans : Nat → SDTFileChannelData)
    (hists : Nat → Nat → Nat) (ora : List Bool) (sf : FS)
    (hn : 0 < d.numChannels)
    (h : WriteSDTFileP d chans hists ⟨[], 0, ora⟩ = (0, sf)) :
    sf.bytes = sdtFileBytes d chans hists ∧
    byteRegion sf.bytes 14 4 = le32 (dbOffs d) ∧
    (∀ j, j + 1 < d.numChannels →
      byteRegion sf.bytes (dbOffs d + j * blockSize d + 6) 4 =
        le32 (dbOffs d + (j + 1) * blockSize d)) := by
  obtain ⟨hok, -⟩ := WriteSDTFileP_spec d chans hists ora 0 sf h
  have hb := hok rfl
  have htk : sf.bytes.take 42 = headerBytes (finalHeader d) := by
    rw [hb]
    exact take42_headerBytes _ _
  have hsplit : sf.bytes =
      (headerBytes (finalHeader d) ++
        (idBytes d ++ (setupBytes ++
          (List.replicate d.numChannels measureInfoBytes).flatten))) ++
        chainFrom d chans hists 0 d.numChannels (dbOffs d) := by
    rw [hb]
    simp [sdtFileBytes, List.append_assoc]
  have hplen : (headerBytes (finalHeader d) ++
      (idBytes d ++ (setupBytes ++
        (List.replicate d.numChannels measureInfoBytes).flatten))).length =
      dbOffs d := by
    simp only [List.length_append, headerBytes_length, setupBytes_length,
      measFlat_length, dbOffs]
    omega
  refine ⟨hb, ?_, ?_⟩
  · rw [byteRegion_of_take (by omega) htk, region_dataBlockOffs]
    rw [show (finalHeader d).data_block_offs =
      (if d.numChannels = 0 then 0 else dbOffs d) from rfl]
    rw [if_neg (by omega)]
  · intro j hj
    rw [hsplit]
    rw [show dbOffs d + j * blockSize d + 6 =
        (headerBytes (finalHeader d) ++
          (idBytes d ++ (setupBytes ++
            (List.replicate d.numChannels measureInfoBytes).flatten))).length +
          (j * blockSize d + 6) from by rw [hplen]; ring]
    rw [byteRegion_append_right]
    exact chainFrom_region d chans hists j 0 d.numChannels (dbOffs d) hj

open SDT in
/-- C10: `WriteSDTFileP` first writes the header marked `BH_HEADER_NOT_VALID`;
only when every identification, setup, measurement-description and data block
write has succeeded does it rewrite the header with `header_valid =
BH_HEADER_VALID` and the checksum; on any write or seek error it returns the
nonzero error code 1 and the header bytes in the file (when any were written
at all) still read `BH_HEADER_NOT_VALID`. -/
theorem claim_C10 (d : SDTFileData) (chans : Nat → SDTFileChannelData)
    (hists : Nat → Nat → Nat) (ora : List Bool) (e : Nat) (sf : FS)
    (h : WriteSDTFileP d chans hists ⟨[], 0, ora⟩ = (e, sf)) :
    (initialHeader d).header_valid = BH_HEADER_NOT_VALID ∧
    (e = 0 → byteRegion sf.bytes 32 2 = le16 BH_HEADER_VALID ∧
      byteRegion sf.bytes 40 2 = le16 (HeaderChecksum (finalHeader d))) ∧
    (e ≠ 0 → e = 1 ∧
      (sf.bytes = [] ∨
        byteRegion sf.bytes 32 2 = le16 BH_HEADER_NOT_VALID)) := by
  obtain ⟨hok, herr⟩ := WriteSDTFileP_spec d chans hists ora e sf h
  refine ⟨rfl, ?_, ?_⟩
  · intro he0
    have hb := hok he0
    have htk : sf.bytes.take 42 = headerBytes (finalHeader d) := by
      rw [hb]
      exact take42_headerBytes _ _
    have hfh : finalHeader d =
        { validHeader d with chksum := HeaderChecksum (validHeader d) } := rfl
    constructor
    · rw [byteRegion_of_take (by omega) htk, region_headerValid,
        show (finalHeader d).header_valid = BH_HEADER_VALID from rfl]
    · rw [byteRegion_of_take (by omega) htk, region_chksum]
      have hck : HeaderChecksum (finalHeader d) =
          HeaderChecksum (validHeader d) := by
        simp only [HeaderChecksum]
        rw [hfh, take20_headerWords]
      rw [hck, hfh]
  · intro he0
    obtain ⟨h1, h2⟩ := herr he0
    refine ⟨h1, ?_⟩
    rcases h2 with h2 | h2
    · exact Or.inl h2
    · refine Or.inr ?_
      rw [byteRegion_of_take (by omega) h2, region_headerValid]
      rfl

/-- Concrete input for exercising `WriteSDTFileP`: two channels of 1x1
histograms with 8-bit resolution compressed to 2^0 = 1 sample. -/
def wData : SDT.SDTFileData :=
  { numChannels := 2, width := 1, height := 1, histogramBits := 0,
    moduleNumber := 1, modelName := "SPC-150", date := "2020-01-01",
    time := "12:00:00" }

def wChans : Nat → SDT.SDTFileChannelData := fun i => { channel := i }

def wHists : Nat → Nat → Nat := fun _ _ => 7

theorem claim_C7_witness :
    SDT.byteRegion
        (SDT.WriteSDTFileP wData wChans wHists ⟨[], 0, []⟩).2.bytes 40 2 =
      SDT.le16 (SDT.HeaderChecksum (SDT.finalHeader wData)) ∧
    (SDT.toWords16
        ((SDT.WriteSDTFileP wData wChans wHists
          ⟨[], 0, []⟩).2.bytes.take SDT.BH_HDR_LENGTH)).sum % 65536 =
      SDT.BH_HEADER_CHKSUM :=
  claim_C7 wData wChans wHists []
    (SDT.WriteSDTFileP wData wChans wHists ⟨[], 0, []⟩).2 rfl

theorem claim_C8_witness :
    (SDT.WriteSDTFileP wData wChans wHists ⟨[], 0, []⟩).2.bytes =
      SDT.sdtFileBytes wData wChans wHists ∧
    SDT.byteRegion
        (SDT.WriteSDTFileP wData wChans wHists ⟨[], 0, []⟩).2.bytes 14 4 =
      SDT.le32 (SDT.dbOffs wData) ∧
    (∀ j, j + 1 < wData.numChannels →
      SDT.byteRegion
          (SDT.WriteSDTFileP wData wChans wHists ⟨[], 0, []⟩).2.bytes
          (SDT.dbOffs wData + j * SDT.blockSize wData + 6) 4 =
        SDT.le32 (SDT.dbOffs wData + (j + 1) * SDT.blockSize wData)) :=
  claim_C8 wData wChans wHists []
    (SDT.WriteSDTFileP wData wChans wHists ⟨[], 0, []⟩).2 (by decide) rfl

theorem claim_C10_witness :
    (SDT.initialHeader wData).header_valid = SDT.BH_HEADER_NOT_VALID ∧
    ((1 : Nat) = 0 →
      SDT.byteRegion (SDT.FS.mk [] 0 []).bytes 32 2 =
        SDT.le16 SDT.BH_HEADER_VALID ∧
      SDT.byteRegion (SDT.FS.mk [] 0 []).bytes 40 2 =
        SDT.le16 (SDT.HeaderChecksum (SDT.finalHeader wData))) ∧
    ((1 : Nat) ≠ 0 → (1 : Nat) = 1 ∧
      ((SDT.FS.mk [] 0 []).bytes = [] ∨
        SDT.byteRegion (SDT.FS.mk [] 0 []).bytes 32 2 =
          SDT.le16 SDT.BH_HEADER_NOT_VALID)) :=
  claim_C10 wData wChans wHists [false] 1 ⟨[], 0, []⟩ (by decide)
